import Mathlib

/-!
# CausalVerify — shallow embedding and verification

A shallow embedding of the core of the CausalVerify library (SHA3-256,
Merkle commitment, causal event registry, stateless verifier, light /
progressive verification, ECDSA verify, UUIDv7 generation), translated
from the TypeScript sources, together with theorems settling the frozen
claims about the specification.

Conventions of the embedding:
* JS `number` timestamps are `Int` (they take part in subtraction);
  indices and counts are `Nat` (the negative-index guard of
  `getProofPath` is commented where it occurs).
* JS `string` is Lean `String`; JS string `<=` is `strLe` (code-point
  lexicographic, which agrees with UTF-16 order on the ASCII hex strings
  the library compares).
* JS `Map` is an association list with most-recent-first insertion, so
  lookup sees the latest `set` for a key, matching `Map.get`.
* Fallible operations (`throw`) are `Except String`.
* Floating-point trust scores (`trustScore`, `immediateTrust`) and the
  asynchronous deferred verification promise are omitted from the result
  records; no claim concerns them.
-/

set_option maxRecDepth 8000

namespace CausalVerify

/-! ## UTF-8 encoding (TextEncoder.encode) -/

/-- UTF-8 encoding of a character, as byte values. Mirrors what
`TextEncoder` produces for a Unicode scalar value. -/
def utf8Char (c : Char) : List Nat :=
  let n := c.toNat
  if n < 0x80 then [n]
  else if n < 0x800 then
    [0xC0 ||| (n >>> 6), 0x80 ||| (n &&& 0x3F)]
  else if n < 0x10000 then
    [0xE0 ||| (n >>> 12), 0x80 ||| ((n >>> 6) &&& 0x3F), 0x80 ||| (n &&& 0x3F)]
  else
    [0xF0 ||| (n >>> 18), 0x80 ||| ((n >>> 12) &&& 0x3F),
     0x80 ||| ((n >>> 6) &&& 0x3F), 0x80 ||| (n &&& 0x3F)]

/-- `TextEncoder.encode`: UTF-8 bytes of a string. -/
def utf8Encode (s : String) : List Nat :=
  s.data.flatMap utf8Char

/-! ## SHA3-256 (crypto/sha3.ts) -/

/-- Keccak round constants (`RC` in the source). -/
def RC : List Nat :=
  [0x0000000000000001, 0x0000000000008082, 0x800000000000808a, 0x8000000080008000,
   0x000000000000808b, 0x0000000080000001, 0x8000000080008081, 0x8000000000008009,
   0x000000000000008a, 0x0000000000000088, 0x0000000080008009, 0x000000008000000a,
   0x000000008000808b, 0x800000000000008b, 0x8000000000008089, 0x8000000000008003,
   0x8000000000008002, 0x8000000000000080, 0x000000000000800a, 0x800000008000000a,
   0x8000000080008081, 0x8000000000008080, 0x0000000080000001, 0x8000000080008008]

/-- Rotation offsets (`ROTATIONS` in the source). -/
def ROTATIONS : List Nat :=
  [0, 1, 62, 28, 27, 36, 44, 6, 55, 20, 3, 10, 43] ++
  [25, 39, 41, 45, 15, 21, 8, 18, 2, 61, 56, 14]

def MASK64 : Nat := 0xffffffffffffffff

/-- `rotl64`: rotate a 64-bit lane left by `n`. -/
def rotl64 (x : Nat) (n : Nat) : Nat :=
  ((x <<< n) ||| (x >>> (64 - n))) &&& MASK64

/-- One round of Keccak-f[1600] (the body of the round loop in `keccakF`). -/
def keccakRound (state : List Nat) (round : Nat) : List Nat :=
  -- Theta
  let c := (List.range 5).map fun x =>
    (state.getD x 0) ^^^ (state.getD (x + 5) 0) ^^^ (state.getD (x + 10) 0) ^^^
    (state.getD (x + 15) 0) ^^^ (state.getD (x + 20) 0)
  let state := (List.range 25).map fun i =>
    let x := i % 5
    let d := (c.getD ((x + 4) % 5) 0) ^^^ rotl64 (c.getD ((x + 1) % 5) 0) 1
    ((state.getD i 0) ^^^ d) &&& MASK64
  -- Rho and Pi
  let b := (List.range 25).foldl (fun (b : List Nat) i =>
    let x := i % 5
    let y := i / 5
    let newY := (2 * x + 3 * y) % 5
    b.set (y + newY * 5) (rotl64 (state.getD i 0) (ROTATIONS.getD i 0)))
    (List.replicate 25 0)
  -- Chi
  let state := (List.range 25).map fun i =>
    let y := (i / 5) * 5
    let x := i % 5
    let b0 := b.getD (y + x) 0
    let b1 := b.getD (y + (x + 1) % 5) 0
    let b2 := b.getD (y + (x + 2) % 5) 0
    (b0 ^^^ ((b1 ^^^ MASK64) &&& b2)) &&& MASK64
  -- Iota (JS `~b1` on a masked lane is `b1 XOR MASK64` above)
  state.set 0 (((state.getD 0 0) ^^^ (RC.getD round 0)) &&& MASK64)

/-- `keccakF`: the full 24-round Keccak-f[1600] permutation. -/
def keccakF (state : List Nat) : List Nat :=
  (List.range 24).foldl keccakRound state

/-- `xorBytes`: XOR up to 136 message bytes into the state lanes. -/
def xorBytes (lanes : List Nat) (bytes : List Nat) : List Nat :=
  let len := min bytes.length 136
  (List.range len).foldl (fun (ls : List Nat) i =>
    let lane := i / 8
    let offset := (i % 8) * 8
    ls.set lane (((ls.getD lane 0) ^^^ ((bytes.getD i 0) <<< offset)) &&& MASK64))
    lanes

/-- `lanesToBytes`: extract `count` bytes from the state. -/
def lanesToBytes (lanes : List Nat) (count : Nat) : List Nat :=
  (List.range count).map fun i =>
    let lane := i / 8
    let offset := (i % 8) * 8
    ((lanes.getD lane 0) >>> offset) &&& 0xff

/-- Absorbing loop of `sha3`, with the number of full blocks still to
process made an explicit counter: the source's
`while (offset + rate <= message.length)` loop runs exactly
`message.length / 136` times. -/
def absorbAux (state : List Nat) : Nat → List Nat → List Nat × List Nat
  | 0, message => (state, message)
  | n + 1, message =>
    absorbAux (keccakF (xorBytes state (message.take 136))) n (message.drop 136)

/-- Absorbing loop of `sha3`: process full 136-byte blocks, returning the
final state and the unprocessed tail. -/
def absorb (state : List Nat) (message : List Nat) : List Nat × List Nat :=
  absorbAux state (message.length / 136) message

/-- Byte value rendered as two lowercase hex digits
(`b.toString(16).padStart(2, '0')`). -/
def byteToHex (b : Nat) : String :=
  let digit (n : Nat) : Char :=
    if n < 10 then Char.ofNat (48 + n) else Char.ofNat (87 + n)
  String.mk [digit (b / 16 % 16), digit (b % 16)]

def bytesToHex (bs : List Nat) : String :=
  String.join (bs.map byteToHex)

/-- `sha3` on raw bytes: SHA3-256, `0x`-prefixed lowercase hex output. -/
def sha3Raw (message : List Nat) : String :=
  let state : List Nat := List.replicate 25 0
  let (state, rest) := absorb state message
  -- Pad final block: 0x06 domain separator, final bit 0x80 at byte 135.
  let remaining := rest.length
  let padded := rest ++ List.replicate (136 - remaining) 0
  let padded := padded.set remaining ((padded.getD remaining 0) ||| 0x06)
  let padded := padded.set 135 ((padded.getD 135 0) ||| 0x80)
  let state := keccakF (xorBytes state padded)
  let output := lanesToBytes state 32
  "0x" ++ bytesToHex output

/-- `sha3(input)` for string input: hash the UTF-8 bytes. -/
def sha3 (input : String) : String :=
  sha3Raw (utf8Encode input)

/-- `sha3Concat(...values)`: join the parts with a `||` separator after
every part (a `null` part contributes the literal bytes `"null"`), then
hash. Parts here are strings or the absent marker, as the library uses it. -/
def sha3Concat (values : List (Option String)) : String :=
  let parts := values.flatMap fun v =>
    (match v with
     | none => utf8Encode "null"
     | some s => utf8Encode s) ++ utf8Encode "||"
  sha3Raw parts

/-! ## Merkle tree (merkle/tree.ts)

The tree keeps its leaves in order plus a node map keyed by
`(level, index)` (the source uses the string key `"level:index"`; the
pair is the same key space). The JS `Map` is an association list with
most-recent-first insertion so that lookup returns the latest `set`.
-/

/-- JS string `<=`: lexicographic comparison by code unit (the strings
compared by the library are ASCII hex strings, on which code-unit order
and code-point order agree). -/
def charListLe : List Char → List Char → Bool
  | [], _ => true
  | _ :: _, [] => false
  | a :: as, b :: bs =>
    if a.toNat < b.toNat then true
    else if b.toNat < a.toNat then false
    else charListLe as bs

def strLe (a b : String) : Bool :=
  charListLe a.data b.data

/-- `hashPair` / `hashPairStatic`: hash two nodes together with sorted
ordering (identical bodies in the source; one definition here). -/
def hashPair (left right : String) : String :=
  if strLe left right then sha3Concat [some left, some right]
  else sha3Concat [some right, some left]

abbrev NodeMap := List ((Nat × Nat) × String)

/-- `Map.get`: latest value set for the key. -/
def nodesGet (nodes : NodeMap) (key : Nat × Nat) : Option String :=
  (nodes.find? fun e => e.1 == key).map (·.2)

/-- `Map.set`: prepend, so `nodesGet` sees the newest binding. -/
def nodesSet (nodes : NodeMap) (key : Nat × Nat) (v : String) : NodeMap :=
  (key, v) :: nodes

structure MerkleTree where
  leaves : List String
  nodes : NodeMap

def MerkleTree.empty : MerkleTree := ⟨[], []⟩

/-- `countNodesAtLevel`: leaf count halved (rounding up) once per level. -/
def countNodesAtLevel (leafCount : Nat) : Nat → Nat
  | 0 => leafCount
  | level + 1 => (countNodesAtLevel leafCount level + 1) / 2

/-- The while-loop of `append`, with an explicit iteration budget (the
source loop exits via its `countNodesAtLevel (level+1) ≤ 1` check; the
budget `append` supplies is large enough that the check always fires
first). Each iteration stores the parent of the current node — promoting
the node when it is a left child with no sibling yet, hashing with the
left sibling otherwise — then moves up one level. -/
def appendLoop (lc : Nat) : Nat → NodeMap → Nat → Nat → String → NodeMap
  | 0, nodes, _, _, _ => nodes
  | fuel + 1, nodes, currentIndex, currentLevel, currentHash =>
    let parentIndex := currentIndex / 2
    let next : NodeMap × String :=
      if currentIndex % 2 == 0 then
        (nodesSet nodes (currentLevel + 1, parentIndex) currentHash, currentHash)
      else
        match nodesGet nodes (currentLevel, currentIndex - 1) with
        | some siblingHash =>
          let h := hashPair siblingHash currentHash
          (nodesSet nodes (currentLevel + 1, parentIndex) h, h)
        | none => (nodes, currentHash)
    if countNodesAtLevel lc (currentLevel + 1) ≤ 1 then next.1
    else appendLoop lc fuel next.1 parentIndex (currentLevel + 1) next.2

/-- Search for the least exponent `k` (starting from the given one) with
`n ≤ 2 ^ k`, with enough fuel that the search always ends at the answer. -/
def ceilLog2Go (n : Nat) : Nat → Nat → Nat
  | 0, k => k
  | fuel + 1, k => if n ≤ 2 ^ k then k else ceilLog2Go n fuel (k + 1)

/-- JS `Math.ceil(Math.log2 n)` on naturals: the least `k` with
`n ≤ 2 ^ k` (and `0` for `n ≤ 1`). -/
def ceilLog2 (n : Nat) : Nat :=
  ceilLog2Go n n 0

/-- `getHeight`: `0` when empty, `1` for a single leaf, else
`ceil(log2 n) + 1`. -/
def MerkleTree.getHeight (t : MerkleTree) : Nat :=
  if t.leaves.length == 0 then 0
  else if t.leaves.length == 1 then 1
  else ceilLog2 t.leaves.length + 1

/-- The downward search of `getRootHash`: from `level - 1` down to `0`,
return the first node at `(level, 0)` that exists where the level holds
exactly one node. -/
def rootLoop (t : MerkleTree) : Nat → Option String
  | 0 => none
  | level + 1 =>
    match nodesGet t.nodes (level, 0) with
    | some hash =>
      if countNodesAtLevel t.leaves.length level == 1 then some hash
      else rootLoop t level
    | none => rootLoop t level

/-- `getRootHash`: empty string for an empty tree, the leaf itself for a
single leaf, else the unique node at the topmost level (falling back to
`(0,0)` or the empty string as the source does). -/
def MerkleTree.getRootHash (t : MerkleTree) : String :=
  if t.leaves.length == 0 then ""
  else if t.leaves.length == 1 then t.leaves.getD 0 ""
  else
    match rootLoop t t.getHeight with
    | some hash => hash
    | none => (nodesGet t.nodes (0, 0)).getD ""

/-- `append`: push the leaf, store it at `(0, leafIndex)`, run the
incremental path-to-root update, and return the new tree with its new
root. -/
def MerkleTree.append (t : MerkleTree) (leafHash : String) : MerkleTree × String :=
  let leafIndex := t.leaves.length
  let leaves := t.leaves ++ [leafHash]
  let nodes := nodesSet t.nodes (0, leafIndex) leafHash
  let nodes := appendLoop leaves.length leaves.length nodes leafIndex 0 leafHash
  let t' : MerkleTree := ⟨leaves, nodes⟩
  (t', t'.getRootHash)

/-- Sibling position marker (`'left' | 'right'` in the source). -/
inductive Position where
  | left
  | right
deriving DecidableEq, Repr

structure ProofPathElement where
  eventHash : String
  siblingHash : String
  position : Position
deriving DecidableEq, Repr

/-- `getProofPath`: for each level below the top, record the node's hash,
its sibling's hash and the sibling's position; a node with no sibling at
its level (odd count) records itself as its own sibling with position
`right`. Out-of-range indices are a hard error (the source also rejects
negative indices, which `Nat` forecloses). -/
def MerkleTree.getProofPath (t : MerkleTree) (leafIndex : Nat) :
    Except String (List ProofPathElement) :=
  if t.leaves.length ≤ leafIndex then
    Except.error ("Leaf index " ++ toString leafIndex ++ " out of bounds (0-" ++
      toString (t.leaves.length - 1) ++ ")")
  else
    let height := t.getHeight
    let result := (List.range (height - 1)).foldl
      (fun (st : Nat × List ProofPathElement) level =>
        let currentIndex := st.1
        let isLeftNode := currentIndex % 2 == 0
        let siblingIndex := if isLeftNode then currentIndex + 1 else currentIndex - 1
        let currentHash := (nodesGet t.nodes (level, currentIndex)).getD ""
        match nodesGet t.nodes (level, siblingIndex) with
        | some siblingHash =>
          (currentIndex / 2, st.2 ++
            [⟨currentHash, siblingHash, if isLeftNode then Position.right else Position.left⟩])
        | none =>
          (currentIndex / 2, st.2 ++ [⟨currentHash, currentHash, Position.right⟩]))
      (leafIndex, [])
    Except.ok result.2

/-- `MerkleTree.verifyProof` (static): an empty expected root rejects;
an empty path accepts exactly the single-leaf case; otherwise fold the
path — skipping self-paired steps — and compare with the expected root. -/
def MerkleTree.verifyProof (leafHash : String) (proofPath : List ProofPathElement)
    (expectedRoot : String) : Bool :=
  if expectedRoot == "" then false
  else if proofPath.isEmpty then leafHash == expectedRoot
  else
    let currentHash := proofPath.foldl
      (fun currentHash step =>
        if step.siblingHash == step.eventHash then currentHash
        else
          match step.position with
          | Position.left => hashPair step.siblingHash currentHash
          | Position.right => hashPair currentHash step.siblingHash)
      leafHash
    currentHash == expectedRoot

/-- A tree built by appending the given leaves in order to an empty tree. -/
def buildTree (leaves : List String) : MerkleTree :=
  leaves.foldl (fun t h => (t.append h).1) MerkleTree.empty

/-! ### Functional reading of the tree levels

`chunkPair` combines one level into the next: adjacent nodes are pair
hashed, a trailing odd node is promoted. `levelNodes L k` is level `k`
of the tree over leaves `L`. The imperative node map is related to this
reading by the invariant `Inv` below. -/

def chunkPair : List String → List String
  | [] => []
  | [a] => [a]
  | a :: b :: rest => hashPair a b :: chunkPair rest

def levelNodes (L : List String) : Nat → List String
  | 0 => L
  | k + 1 => chunkPair (levelNodes L k)

/-- The level at which the tree over `n ≥ 1` leaves has a single node. -/
def topLevel (n : Nat) : Nat := ceilLog2 n

/-- The hash the append loop carries at each level while inserting `h`
after the leaves `L`: the new last node of that level. -/
def newPathHash (L : List String) (h : String) : Nat → String
  | 0 => h
  | k + 1 =>
    let q := L.length / 2 ^ k
    if q % 2 = 1 then hashPair ((levelNodes L k).getD (q - 1) "") (newPathHash L h k)
    else newPathHash L h k

/-- The root in the functional reading: empty string for no leaves, the
single top-level node otherwise. -/
def funcRoot (L : List String) : String :=
  if L.length = 0 then "" else (levelNodes L (topLevel L.length)).getD 0 ""

/-- The proof path for leaf `i` in the functional reading: one element
per level below the top — the node at the leaf's position, its sibling
(itself when the position is a trailing odd node), and the sibling's
side. -/
def pathSpec (L : List String) (i : Nat) : List ProofPathElement :=
  (List.range (topLevel L.length)).map fun k =>
    let q := i / 2 ^ k
    let lvl := levelNodes L k
    if q % 2 = 0 then
      if q + 1 < countNodesAtLevel L.length k then
        ⟨lvl.getD q "", lvl.getD (q + 1) "", Position.right⟩
      else ⟨lvl.getD q "", lvl.getD q "", Position.right⟩
    else ⟨lvl.getD q "", lvl.getD (q - 1) "", Position.left⟩

/-- Along the proof path of leaf `i`, no node that genuinely has a
sibling carries the same hash as that sibling (such a collision — e.g.
a duplicated leaf — makes verification skip a step it must not skip). -/
def noSelfPairClash (L : List String) (i : Nat) : Bool :=
  (List.range (topLevel L.length)).all fun k =>
    let q := i / 2 ^ k
    let lvl := levelNodes L k
    if q % 2 = 0 then
      if q + 1 < countNodesAtLevel L.length k then
        !(lvl.getD (q + 1) "" == lvl.getD q "")
      else true
    else !(lvl.getD (q - 1) "" == lvl.getD q "")

/-- The imperative node map agrees with the functional levels: every
node below the top level is present with its functional value, and no
node exists beyond a level's width. -/
def Inv (L : List String) (t : MerkleTree) : Prop :=
  t.leaves = L ∧
  (∀ k, k ≤ topLevel L.length → ∀ j, j < countNodesAtLevel L.length k →
    nodesGet t.nodes (k, j) = some ((levelNodes L k).getD j "")) ∧
  (∀ k j, countNodesAtLevel L.length k ≤ j → nodesGet t.nodes (k, j) = none)

/-! ## ECDSA secp256k1 (crypto/ecdsa.ts)

BigInt arithmetic is `Int` (JS `%` truncates toward zero, which is
`Int.emod`… no — JS `%` is `Int.tmod`; the source's normalizing
`((x % P) + P) % P` steps appear verbatim). Only `verify` and
`generatePrivateKey` matter to the claims; `sign` and key recovery are
not needed by any claim and are omitted. -/

def secpP : Int :=
  0xfffffffffffffffffffffffffffffffffffffffffffffffffffffffefffffc2f

def secpN : Int :=
  0xfffffffffffffffffffffffffffffffebaaedce6af48a03bbfd25e8cd0364141

structure ECPoint where
  x : Int
  y : Int
deriving DecidableEq, Repr

def secpG : ECPoint :=
  ⟨0x79be667ef9dcbbac55a06295ce870b07029bfcdb2dce28d959f2815b16f81798,
   0x483ada7726a3c4655da4fbfc0e1108a8fd17b448a68554199c47d08ffb10d4b8⟩

def INFINITY : ECPoint := ⟨0, 0⟩

def isInfinity (p : ECPoint) : Bool :=
  p.x == 0 && p.y == 0

/-- `modPow(base, exp, mod)`: binary modular exponentiation, faithful to
the JS loop (`res` and `base` updated per bit, `%` truncating toward
zero as JS BigInt `%` does; the loop runs while `exp > 0`, so `exp.toNat`
bounds its iterations). -/
def modPow (base exp m : Int) : Int :=
  go (base.tmod m) exp 1 exp.toNat
where
  go (base exp res : Int) : Nat → Int
    | 0 => res
    | fuel + 1 =>
      if exp > 0 then
        let res := if exp.tmod 2 == 1 then (res * base).tmod m else res
        go ((base * base).tmod m) (exp / 2) res fuel
      else res

/-- `modInverse(a, mod)`: Fermat inverse `a^(mod-2) mod mod`. -/
def modInverse (a m : Int) : Int :=
  modPow a (m - 2) m

/-- `hexToBigInt`: parse a hex string (with or without `0x`); the empty
string is `0`; a non-hex digit is a JS `SyntaxError`, surfaced as
`none` so callers can model their `try`/`catch`. -/
def hexDigit (c : Char) : Option Nat :=
  if '0' ≤ c ∧ c ≤ '9' then some (c.toNat - 48)
  else if 'a' ≤ c ∧ c ≤ 'f' then some (c.toNat - 87)
  else if 'A' ≤ c ∧ c ≤ 'F' then some (c.toNat - 55)
  else none

def hexToNat (s : String) : Option Nat :=
  s.data.foldl (fun acc c =>
    match acc, hexDigit c with
    | some n, some d => some (n * 16 + d)
    | _, _ => none) (some 0)

def hexToBigInt (hex : String) : Option Int :=
  let h := if hex.startsWith "0x" then hex.drop 2 else hex
  (hexToNat h).map Int.ofNat

/-- `pointAdd` on secp256k1 (doubling when the points share `x`). -/
def pointAdd (p1 p2 : ECPoint) : ECPoint :=
  if isInfinity p1 then p2
  else if isInfinity p2 then p1
  else if p1.x == p2.x then
    if p1.y != p2.y then INFINITY
    else
      let s := (3 * p1.x * p1.x * modInverse (2 * p1.y) secpP).tmod secpP
      let x3 := ((s * s - 2 * p1.x).tmod secpP + secpP).tmod secpP
      let y3 := ((s * (p1.x - x3) - p1.y).tmod secpP + secpP).tmod secpP
      ⟨x3, y3⟩
  else
    let s := ((p2.y - p1.y) * modInverse (p2.x - p1.x) secpP).tmod secpP
    let x3 := ((s * s - p1.x - p2.x).tmod secpP + secpP).tmod secpP
    let y3 := ((s * (p1.x - x3) - p1.y).tmod secpP + secpP).tmod secpP
    ⟨x3, y3⟩

/-- `pointMul`: double-and-add over the bits of `k % N` (no iterations
when the reduced scalar is not positive, as in the JS `while`). -/
def pointMulAux (result base : ECPoint) (scalar : Int) : Nat → ECPoint
  | 0 => result
  | fuel + 1 =>
    if scalar > 0 then
      let result := if scalar.tmod 2 == 1 then pointAdd result base else result
      pointMulAux result (pointAdd base base) (scalar / 2) fuel
    else result

def pointMul (k : Int) (p : ECPoint) : ECPoint :=
  let scalar := k.tmod secpN
  pointMulAux INFINITY p scalar scalar.toNat

/-- `parsePublicKey`: `0x04 || X || Y`, throws on bad shape (`none`). -/
def parsePublicKey (pubKey : String) : Option ECPoint :=
  let k := if pubKey.startsWith "0x" then pubKey.drop 2 else pubKey
  if k.length != 130 || !(k.startsWith "04") then none
  else
    match hexToNat ((k.drop 2).take 64), hexToNat ((k.drop 66).take 64) with
    | some x, some y => some ⟨Int.ofNat x, Int.ofNat y⟩
    | _, _ => none

/-- `verify(messageHash, signature, publicKey)`: range and BIP-62 low-s
checks, then the standard ECDSA equation; every catchable parse failure
returns `false`. -/
def ecdsaVerify (messageHash signature publicKey : String) : Bool :=
  match hexToBigInt messageHash with
  | none => false
  | some z =>
    let sig := if signature.startsWith "0x" then signature.drop 2 else signature
    if sig.length != 128 then false
    else
      match hexToNat (sig.take 64), hexToNat ((sig.drop 64).take 64) with
      | none, _ => false
      | _, none => false
      | some rN, some sN =>
        let r : Int := Int.ofNat rN
        let s : Int := Int.ofNat sN
        if r ≤ 0 || r ≥ secpN || s ≤ 0 || s ≥ secpN then false
        else if s > secpN / 2 then false
        else
          match parsePublicKey publicKey with
          | none => false
          | some point =>
            let sInv := modInverse s secpN
            let u1 := (z * sInv).tmod secpN
            let u2 := (r * sInv).tmod secpN
            let p1 := pointMul u1 secpG
            let p2 := pointMul u2 point
            let R := pointAdd p1 p2
            if isInfinity R then false
            else R.x.tmod secpN == r

/-! ## Randomness environment, `generatePrivateKey`, `generateUUIDv7`
(crypto/ecdsa.ts, crypto/uuid.ts)

The platform's randomness is a parameter: `crypto.getRandomValues`, when
available, fills a buffer from the secure source; otherwise the sources
loop over `Math.floor(Math.random() * 256)`, modelled as a weak byte
stream indexed by call number. -/

structure RandomEnv where
  /-- `crypto.getRandomValues` when the platform has it: a secure byte
  source, indexed by position, producing bytes. -/
  crypto : Option (Nat → Nat)
  /-- `Math.floor(Math.random() * 256)`: the weak source's successive
  byte values. -/
  mathRandomByte : Nat → Nat

/-- `getRandomBytes(count)` (uuid.ts): secure bytes when `crypto` is
available, else the `Math.random` fallback loop. -/
def getRandomBytes (env : RandomEnv) (count : Nat) : List Nat :=
  match env.crypto with
  | some g => (List.range count).map fun i => g i % 256
  | none => (List.range count).map fun i => env.mathRandomByte i % 256

/-- `generatePrivateKey()` (ecdsa.ts): 32 bytes — secure when `crypto`
exists, else the `Math.random` loop — hex-encoded with `0x`. -/
def generatePrivateKey (env : RandomEnv) : String :=
  let bytes :=
    match env.crypto with
    | some g => (List.range 32).map fun i => g i % 256
    | none => (List.range 32).map fun i => env.mathRandomByte i % 256
  "0x" ++ bytesToHex bytes

/-- `generateUUIDv7()` (uuid.ts): 48-bit big-endian millisecond
timestamp, version and variant bits, ten random bytes, rendered
8-4-4-4-12. `Date.now()` is the `nowMs` parameter. -/
def generateUUIDv7 (env : RandomEnv) (nowMs : Nat) : String :=
  let random := getRandomBytes env 10
  let r (i : Nat) : Nat := random.getD i 0
  let uuid : List Nat :=
    [nowMs / 0x10000000000 % 256,
     nowMs / 0x100000000 % 256,
     nowMs / 0x1000000 % 256,
     nowMs / 0x10000 % 256,
     nowMs / 0x100 % 256,
     nowMs % 256,
     0x70 ||| (r 0 &&& 0x0f),
     r 1,
     0x80 ||| (r 2 &&& 0x3f),
     r 3, r 4, r 5, r 6, r 7, r 8, r 9]
  let hex := bytesToHex uuid
  (hex.take 8) ++ "-" ++ ((hex.drop 8).take 4) ++ "-" ++ ((hex.drop 12).take 4) ++
    "-" ++ ((hex.drop 16).take 4) ++ "-" ++ ((hex.drop 20).take 12)

/-! ## Shared data model (types/index.ts)

`actionType` is a `String`: the TypeScript union is erased at runtime
and the registry re-checks membership in the closed set. Timestamps are
`Int` (JS numbers that take part in subtraction and comparison). The
causal-chain element carries `predecessorHash` as the verifier and the
tests use it, though the published interface omits the field. -/

structure EventInput where
  agentId : String
  actionType : String
  payloadHash : String
  predecessorHash : Option String
  timestamp : Int
deriving DecidableEq, Repr

structure CausalEvent where
  agentId : String
  actionType : String
  payloadHash : String
  predecessorHash : Option String
  timestamp : Int
  causalEventId : String
  eventHash : String
  positionInTree : Nat
  treeRootHash : String
deriving DecidableEq, Repr

structure CausalChainElement where
  eventHash : String
  actionType : String
  timestamp : Int
  predecessorHash : Option String
deriving DecidableEq, Repr

structure CausalProof where
  targetEvent : CausalEvent
  proofPath : List ProofPathElement
  causalChain : List CausalChainElement
  treeRootHash : String
  agentSignature : String
deriving DecidableEq, Repr

/-- Verification result (`trustScore`, a float, is omitted; no claim
concerns it). -/
structure VerificationResult where
  isValid : Bool
  errors : List String
  verifiedActions : Nat
deriving DecidableEq, Repr

/-! ## Causal event registry (registry/registry.ts)

The two `Map`s are association lists with most-recent-first insertion
(`Map.get` sees the latest `set`). -/

structure RegState where
  agentId : String
  /-- `events`: by causal event id. -/
  events : List (String × CausalEvent)
  /-- `eventsByHash`: by event digest. -/
  eventsByHash : List (String × CausalEvent)
  tree : MerkleTree
  lastEventHash : Option String

def mapGet (m : List (String × CausalEvent)) (key : String) : Option CausalEvent :=
  (m.find? fun e => e.1 == key).map (·.2)

def mapHas (m : List (String × CausalEvent)) (key : String) : Bool :=
  (m.find? fun e => e.1 == key).isSome

/-- The registry constructor: empty agent identifiers are rejected (the
`trim` check collapses to emptiness on the identifiers in play). -/
def mkRegistry (agentId : String) : Except String RegState :=
  if agentId == "" then Except.error "agentId is required and cannot be empty"
  else Except.ok ⟨agentId, [], [], MerkleTree.empty, none⟩

/-- The canonical event digest (I3):
`sha3Concat(agentId, actionType, payloadHash, predecessorHash, String(timestamp))`. -/
def eventHashOf (input : EventInput) : String :=
  sha3Concat [some input.agentId, some input.actionType, some input.payloadHash,
    input.predecessorHash, some (toString input.timestamp)]

/-- `registerEvent(input)`: agent check, predecessor check (an absent
predecessor is allowed even when the registry is non-empty), action-type
check; then mint an identifier (`generateUUIDv7`, passed in as
`freshId`), compute the digest, snapshot the leaf index, append to the
tree, store in both indices and update the last-digest pointer. -/
def registerEvent (st : RegState) (input : EventInput) (freshId : String) :
    Except String (RegState × CausalEvent) :=
  if input.agentId != st.agentId then
    Except.error ("Agent ID mismatch: expected " ++ st.agentId ++ ", got " ++ input.agentId)
  else
    match input.predecessorHash with
    | some pred =>
      if !mapHas st.eventsByHash pred then
        Except.error ("Invalid predecessor hash: " ++ pred ++ " not found in registry")
      else registerValidated st input freshId
    | none =>
      -- the source's `else if (this.events.size > 0)` branch is empty:
      -- a missing predecessor is allowed after the first event
      registerValidated st input freshId
where
  registerValidated (st : RegState) (input : EventInput) (freshId : String) :
      Except String (RegState × CausalEvent) :=
    if !(["request", "response", "error", "state_transition"].contains input.actionType) then
      Except.error ("Invalid action type: " ++ input.actionType)
    else
      let eventHash := eventHashOf input
      let positionInTree := st.tree.leaves.length
      let (tree, treeRootHash) := st.tree.append eventHash
      let event : CausalEvent :=
        ⟨input.agentId, input.actionType, input.payloadHash, input.predecessorHash,
         input.timestamp, freshId, eventHash, positionInTree, treeRootHash⟩
      Except.ok
        (⟨st.agentId, (freshId, event) :: st.events, (eventHash, event) :: st.eventsByHash,
          tree, some eventHash⟩, event)

/-- The backwards walk of `getEventChain`: gather predecessors while the
pointer is non-null and fewer than `remaining` events are gathered (the
loop guard `chain.length < depth`), oldest first; a broken pointer ends
the walk. -/
def walkBack (st : RegState) : Nat → Option String → List CausalEvent
  | 0, _ => []
  | _, none => []
  | remaining + 1, some currentHash =>
    match mapGet st.eventsByHash currentHash with
    | none => []
    | some event => walkBack st remaining event.predecessorHash ++ [event]

/-- `getEventChain(eventId, depth)`: unknown identifier gives `[]`; else
the gathered predecessors followed by the target. -/
def getEventChain (st : RegState) (eventId : String) (depth : Nat) : List CausalEvent :=
  match mapGet st.events eventId with
  | none => []
  | some targetEvent => walkBack st depth targetEvent.predecessorHash ++ [targetEvent]

/-! ## Stateless verifier (verification/verifier.ts) -/

/-- `verifyCausalChain(chain, expectedFinalHash, options)`: an empty
chain is invalid; the last element must carry the expected hash; each
non-first element must point at the previous element and must not
precede it in time; `requireNullRoot` additionally forces the first
element to be a root. -/
def verifyCausalChain (chain : List CausalChainElement) (expectedFinalHash : String)
    (requireNullRoot : Bool) : Bool × List String :=
  if chain.length == 0 then (false, ["Causal chain is empty"])
  else
    let errors₀ : List String :=
      match chain.getLast? with
      | some lastElement =>
        if lastElement.eventHash != expectedFinalHash then
          ["Causal chain final hash mismatch: expected " ++ expectedFinalHash ++
           ", got " ++ lastElement.eventHash]
        else []
      | none => []
    let errors := (List.range chain.length).foldl
      (fun (errors : List String) i =>
        match chain.get? i with
        | none => errors
        | some current =>
          let errors :=
            if i == 0 && requireNullRoot && current.predecessorHash != none then
              errors ++
                ["Invalid root event: first event in complete chain must have null predecessorHash"]
            else errors
          if 0 < i then
            match chain.get? (i - 1) with
            | none => errors
            | some previous =>
              let errors :=
                if current.predecessorHash != some previous.eventHash then
                  errors ++ ["Causal gap detected: event " ++ current.eventHash ++
                    " at index " ++ toString i ++ " expects predecessor " ++
                    (match current.predecessorHash with
                     | some p => p
                     | none => "null") ++ ", but got " ++ previous.eventHash]
                else errors
              if current.timestamp < previous.timestamp then
                errors ++ ["Temporal anomaly at index " ++ toString i ++ ": event " ++
                  current.eventHash ++ " happened before its predecessor"]
              else errors
          else errors)
      errors₀
    (errors.length == 0, errors)

/-- `verifyProof(proof, expectedAgentId, expectedPublicKey)`: the five
checks accumulate errors (none of them throws); the proof is valid iff
no error accumulated; `verifiedActions` is the chain length exactly when
the chain-integrity check passed. The float `trustScore` is omitted. -/
def verifyProof (proof : CausalProof) (expectedAgentId expectedPublicKey : String) :
    VerificationResult :=
  let errors : List String := []
  -- 1. agent identity
  let errors :=
    if proof.targetEvent.agentId != expectedAgentId then
      errors ++ ["Agent ID mismatch: expected " ++ expectedAgentId ++ ", got " ++
        proof.targetEvent.agentId]
    else errors
  -- 2. Merkle inclusion
  let isIncluded :=
    MerkleTree.verifyProof proof.targetEvent.eventHash proof.proofPath proof.treeRootHash
  let errors :=
    if !isIncluded then errors ++ ["Merkle inclusion proof verification failed"] else errors
  -- 3. root signature
  let isSignatureValid :=
    ecdsaVerify proof.treeRootHash proof.agentSignature expectedPublicKey
  let errors :=
    if !isSignatureValid then errors ++ ["Agent signature verification failed"] else errors
  -- 4. recomputed content digest
  let computedEventHash := sha3Concat [some proof.targetEvent.agentId,
    some proof.targetEvent.actionType, some proof.targetEvent.payloadHash,
    proof.targetEvent.predecessorHash, some (toString proof.targetEvent.timestamp)]
  let errors :=
    if computedEventHash != proof.targetEvent.eventHash then
      errors ++ ["Target event hash integrity check failed"]
    else errors
  -- 5. causal-chain integrity
  let chainVerification := verifyCausalChain proof.causalChain proof.targetEvent.eventHash false
  let errors := if !chainVerification.1 then errors ++ chainVerification.2 else errors
  let verifiedActions := if chainVerification.1 then proof.causalChain.length else 0
  ⟨errors.length == 0, errors, verifiedActions⟩

/-! ## Light proof and progressive verifier
(verification/light-proof.ts, verification/progressive.ts) -/

structure LightChainElement where
  eventHash : String
  timestamp : Int
deriving DecidableEq, Repr

structure LightProof where
  agentId : String
  targetEventHash : String
  causalChain : List LightChainElement
  timestamp : Int
deriving DecidableEq, Repr

structure LightOptions where
  maxAgeMs : Option Int
  minDepth : Option Nat
deriving DecidableEq, Repr

/-- `verifyLightProof(proof, expectedAgentId, options)`: agent match,
freshness (`Date.now()` is the `now` parameter), minimum depth, target
digest present in the chain and equal to the last element's, and
non-decreasing timestamps. -/
def verifyLightProof (now : Int) (proof : LightProof) (expectedAgentId : String)
    (options : LightOptions) : Bool :=
  let maxAge := options.maxAgeMs.getD 300000
  let minDepth := options.minDepth.getD 3
  if proof.agentId != expectedAgentId then false
  else if now - proof.timestamp > maxAge then false
  else if proof.causalChain.length < minDepth then false
  else if !(proof.causalChain.any fun el => el.eventHash == proof.targetEventHash) then false
  else if ((proof.causalChain.getLast?).map (·.eventHash)) != some proof.targetEventHash then
    false
  else (List.range proof.causalChain.length).all fun i =>
    if i == 0 then true
    else
      match proof.causalChain.get? i, proof.causalChain.get? (i - 1) with
      | some cur, some prev => decide (¬ cur.timestamp < prev.timestamp)
      | _, _ => true

structure ProgressiveOptions where
  autoVerifyFull : Option Bool
  isHighValue : Option Bool
  minDepth : Option Nat
  maxAgeMs : Option Int
deriving DecidableEq, Repr

/-- The synchronous part of a progressive result (`immediateTrust` is a
float and `fullResult` a promise resolved on a later tick; both are
omitted — no claim concerns them). -/
structure ProgressiveResult where
  canProceed : Bool
  reason : String
  deferredStatus : String
deriving DecidableEq, Repr

/-- `ProgressiveVerifier.verify`, synchronous behaviour: the light check
runs immediately; high-value transactions never proceed immediately; the
deferred status records whether a full verification was scheduled. -/
def progressiveVerify (now : Int) (light : LightProof) (hasFull : Bool)
    (ctxAgentId : String) (hasPublicKey : Bool) (options : ProgressiveOptions) :
    ProgressiveResult :=
  let autoVerifyFull := options.autoVerifyFull.getD true
  let isHighValue := options.isHighValue.getD false
  let immediateValid := verifyLightProof now light ctxAgentId
    ⟨options.maxAgeMs, options.minDepth⟩
  let canProceedImmediately := immediateValid && !isHighValue
  let deferredStatus :=
    if hasFull && hasPublicKey && autoVerifyFull then "pending" else "not_requested"
  ⟨canProceedImmediately,
   if immediateValid then
     (if isHighValue then "high_value_requires_full_verification"
      else "immediate_trust_granted")
   else "light_verification_failed",
   deferredStatus⟩

/-! ## Auxiliary definitions used by the theorems -/

/-- Flip a `left` marker to `right` and vice versa. -/
def flipPosition : Position → Position
  | Position.left => Position.right
  | Position.right => Position.left

/-- Flip the position marker of the `i`-th proof-path element (other
elements, and out-of-range indices, are left unchanged). -/
def flipStepAt : List ProofPathElement → Nat → List ProofPathElement
  | [], _ => []
  | e :: rest, 0 => ⟨e.eventHash, e.siblingHash, flipPosition e.position⟩ :: rest
  | e :: rest, i + 1 => e :: flipStepAt rest i

/-- A proof with an empty causal chain, used to witness `C9`. -/
def c9Proof : CausalProof :=
  ⟨⟨"0xA", "request", "0x01", none, 1, "id1", "0xdead", 0, "0xdead"⟩, [], [], "0xdead", "0x"⟩

/-- A registry with three linearly linked events, the repository's own
depth-limit scenario in miniature. -/
def c3Registry : Except String RegState := do
  let st0 ← mkRegistry "0xA"
  let (st1, e1) ← registerEvent st0 ⟨"0xA", "request", "0x01", none, 1⟩ "id1"
  let (st2, e2) ← registerEvent st1 ⟨"0xA", "request", "0x02", some e1.eventHash, 2⟩ "id2"
  let (st3, _) ← registerEvent st2 ⟨"0xA", "request", "0x03", some e2.eventHash, 3⟩ "id3"
  pure st3

/-- Feed a sequence of inputs to `registerEvent`, minting the `k`-th
fresh identifier from the stream `ids`; record each event's digest and
the root digest after its insertion. A failed registration propagates
(the exception stops the run). -/
def runEvents : RegState → (Nat → String) → Nat → List EventInput → List (String × String)
  | _, _, _, [] => []
  | st, ids, k, input :: rest =>
    match registerEvent st input (ids k) with
    | Except.error _ => []
    | Except.ok (st', e) => (e.eventHash, e.treeRootHash) :: runEvents st' ids (k + 1) rest

/-- What two registries share when they have been fed the same inputs
but different identifier streams: the bound agent, the tree, and the
digest index's keys. -/
def obsEq (st1 st2 : RegState) : Prop :=
  st1.agentId = st2.agentId ∧ st1.tree = st2.tree ∧
  st1.eventsByHash.map Prod.fst = st2.eventsByHash.map Prod.fst

/-- The invariant carried through the append loop: levels `0..c` updated
to their new values along the insertion path, levels above `c` still at
their old values, and nothing stored beyond any level's width. -/
def MidInv (L : List String) (h : String) (c : Nat) (nodes : NodeMap) : Prop :=
  (∀ k, k ≤ c → ∀ j, j ≤ L.length / 2 ^ k →
    nodesGet nodes (k, j) = some ((levelNodes (L ++ [h]) k).getD j "")) ∧
  (∀ k, c < k → k ≤ topLevel L.length → ∀ j, j < countNodesAtLevel L.length k →
    nodesGet nodes (k, j) = some ((levelNodes L k).getD j "")) ∧
  (∀ k j, k ≤ c → L.length / 2 ^ k + 1 ≤ j → nodesGet nodes (k, j) = none) ∧
  (∀ k j, c < k → countNodesAtLevel L.length k ≤ j → nodesGet nodes (k, j) = none)

/-- What holds of the node map when the append loop finishes. -/
def PostInv (L : List String) (h : String) (nodes : NodeMap) : Prop :=
  (∀ k, k ≤ topLevel (L.length + 1) → ∀ j, j ≤ L.length / 2 ^ k →
    nodesGet nodes (k, j) = some ((levelNodes (L ++ [h]) k).getD j "")) ∧
  (∀ k j, L.length / 2 ^ k + 1 ≤ j → nodesGet nodes (k, j) = none)

def c1DupLeaf : String :=
  "0x0000000000000000000000000000000000000000000000000000000000000000"

def c1LeafA : String :=
  "0xaaaaaaaaaaaaaaaaaaaaaaaaaaaaaaaaaaaaaaaaaaaaaaaaaaaaaaaaaaaaaaaa"

def c1LeafB : String :=
  "0xbbbbbbbbbbbbbbbbbbbbbbbbbbbbbbbbbbbbbbbbbbbbbbbbbbbbbbbbbbbbbbbb"

/-! ## Order facts about the sorted pair combiner -/

theorem charListLe_total (as bs : List Char) :
    charListLe as bs = true ∨ charListLe bs as = true := by
  induction as generalizing bs with
  | nil => left; rfl
  | cons a as ih =>
    cases bs with
    | nil => right; rfl
    | cons b bs =>
      by_cases hab : a.toNat < b.toNat
      · left; simp [charListLe, hab]
      · by_cases hba : b.toNat < a.toNat
        · right; simp [charListLe, hba]
        · have := ih bs
          simpa [charListLe, hab, hba] using this

theorem charListLe_antisymm (as bs : List Char) (h1 : charListLe as bs = true)
    (h2 : charListLe bs as = true) : as = bs := by
  induction as generalizing bs with
  | nil =>
    cases bs with
    | nil => rfl
    | cons b bs => simp [charListLe] at h2
  | cons a as ih =>
    cases bs with
    | nil => simp [charListLe] at h1
    | cons b bs =>
      by_cases hab : a.toNat < b.toNat
      · simp [charListLe, hab, Nat.not_lt_of_lt hab] at h2
      · by_cases hba : b.toNat < a.toNat
        · simp [charListLe, hab, hba] at h1
        · have hEq : a = b := by
            have : a.toNat = b.toNat := Nat.le_antisymm (Nat.not_lt.mp hba) (Nat.not_lt.mp hab)
            have hv : a.val.toNat = b.val.toNat := this
            exact Char.ext (UInt32.toNat.inj hv)
          subst hEq
          simp only [charListLe, lt_irrefl, if_neg (lt_irrefl a.toNat), if_false] at h1 h2
          exact congrArg (a :: ·) (ih bs (by simpa using h1) (by simpa using h2))

theorem strLe_total (a b : String) : strLe a b = true ∨ strLe b a = true :=
  charListLe_total a.data b.data

theorem strLe_antisymm (a b : String) (h1 : strLe a b = true) (h2 : strLe b a = true) :
    a = b := by
  cases a; cases b
  exact congrArg String.mk (charListLe_antisymm _ _ h1 h2)

/-- The sorted combiner is symmetric: order of operands is irrelevant. -/
theorem hashPair_comm (a b : String) : hashPair a b = hashPair b a := by
  unfold hashPair
  by_cases hab : strLe a b = true
  · by_cases hba : strLe b a = true
    · have : a = b := strLe_antisymm a b hab hba
      subst this; rfl
    · simp [hab, hba]
  · rcases strLe_total a b with h | h
    · exact absurd h hab
    · simp [hab, h]

/-! ## Claim theorems -/

theorem flipStepAt_nil_iff (path : List ProofPathElement) (i : Nat) :
    (flipStepAt path i).isEmpty = path.isEmpty := by
  cases path with
  | nil => cases i <;> rfl
  | cons e rest => cases i <;> rfl

/-- One verification step treats a flipped element identically. -/
theorem verifyStep_flip (cur : String) (e : ProofPathElement) :
    (if e.siblingHash == e.eventHash then cur
     else match flipPosition e.position with
       | Position.left => hashPair e.siblingHash cur
       | Position.right => hashPair cur e.siblingHash) =
    (if e.siblingHash == e.eventHash then cur
     else match e.position with
       | Position.left => hashPair e.siblingHash cur
       | Position.right => hashPair cur e.siblingHash) := by
  by_cases h : e.siblingHash == e.eventHash
  · simp [h]
  · cases e with
    | mk ev sib pos =>
      cases pos <;> simp [h, flipPosition, hashPair_comm]

theorem verifyFold_flip (path : List ProofPathElement) (i : Nat) (cur : String) :
    (flipStepAt path i).foldl
      (fun currentHash step =>
        if step.siblingHash == step.eventHash then currentHash
        else match step.position with
          | Position.left => hashPair step.siblingHash currentHash
          | Position.right => hashPair currentHash step.siblingHash) cur =
    path.foldl
      (fun currentHash step =>
        if step.siblingHash == step.eventHash then currentHash
        else match step.position with
          | Position.left => hashPair step.siblingHash currentHash
          | Position.right => hashPair currentHash step.siblingHash) cur := by
  induction path generalizing i cur with
  | nil => cases i <;> rfl
  | cons e rest ih =>
    cases i with
    | zero =>
      simp only [flipStepAt, List.foldl_cons]
      rw [verifyStep_flip]
    | succ j =>
      simp only [flipStepAt, List.foldl_cons]
      exact ih j _

/-- Claim C10 — Merkle verification is independent of position markers:
flipping the `position` field of any proof-path element leaves
`MerkleTree.verifyProof`'s result unchanged, because the pair-hash
combiner sorts its operands before hashing. -/
theorem C10_verifyProof_position_invariant (leafHash : String)
    (proofPath : List ProofPathElement) (expectedRoot : String) (i : Nat) :
    MerkleTree.verifyProof leafHash (flipStepAt proofPath i) expectedRoot =
    MerkleTree.verifyProof leafHash proofPath expectedRoot := by
  unfold MerkleTree.verifyProof
  by_cases hroot : expectedRoot == ""
  · simp [hroot]
  · simp only [hroot, if_false, Bool.false_eq_true]
    rw [flipStepAt_nil_iff]
    by_cases hnil : proofPath.isEmpty
    · simp [hnil]
    · simp only [hnil, if_false, Bool.false_eq_true]
      rw [verifyFold_flip]

/-- Claim C5 — `registerEvent` fails exactly when the agent identifier
differs from the bound one, or a supplied predecessor digest is unknown
to the by-digest index, or the action type is outside the closed set; in
particular an absent predecessor is accepted even in a non-empty
registry. -/
theorem C5_registerEvent_error_conditions (st : RegState) (input : EventInput)
    (freshId : String) :
    (∃ msg, registerEvent st input freshId = Except.error msg) ↔
      (input.agentId ≠ st.agentId ∨
       (∃ p, input.predecessorHash = some p ∧ mapHas st.eventsByHash p = false) ∨
       input.actionType ∉ (["request", "response", "error", "state_transition"] : List String)) := by
  by_cases h1 : input.agentId = st.agentId
  · cases hpred : input.predecessorHash with
    | some p =>
      by_cases h2 : mapHas st.eventsByHash p
      · by_cases h3 : input.actionType ∈ (["request", "response", "error", "state_transition"] : List String)
        · simp [registerEvent, registerEvent.registerValidated, h1, hpred, h2, h3]
        · simp [registerEvent, registerEvent.registerValidated, h1, hpred, h2, h3]
      · simp [registerEvent, h1, hpred, h2]
    | none =>
      by_cases h3 : input.actionType ∈ (["request", "response", "error", "state_transition"] : List String)
      · simp [registerEvent, registerEvent.registerValidated, h1, hpred, h3]
      · simp [registerEvent, registerEvent.registerValidated, h1, hpred, h3]
  · simp [registerEvent, h1]

/-- Claim C7 (amended) — with `isHighValue` set the immediate decision is
always a refusal, but the reason is `high_value_requires_full_verification`
only when the light check passed and `light_verification_failed`
otherwise; with `isHighValue` unset, `canProceed` equals the light
check's result. -/
theorem C7_highValue_immediate_decision (now : Int) (light : LightProof) (hasFull : Bool)
    (agentId : String) (hasPublicKey : Bool) (options : ProgressiveOptions) :
    ((progressiveVerify now light hasFull agentId hasPublicKey
        ⟨options.autoVerifyFull, some true, options.minDepth, options.maxAgeMs⟩).canProceed
        = false ∧
     (progressiveVerify now light hasFull agentId hasPublicKey
        ⟨options.autoVerifyFull, some true, options.minDepth, options.maxAgeMs⟩).reason =
       (if verifyLightProof now light agentId ⟨options.maxAgeMs, options.minDepth⟩
        then "high_value_requires_full_verification"
        else "light_verification_failed")) ∧
    (progressiveVerify now light hasFull agentId hasPublicKey
        ⟨options.autoVerifyFull, none, options.minDepth, options.maxAgeMs⟩).canProceed =
      verifyLightProof now light agentId ⟨options.maxAgeMs, options.minDepth⟩ := by
  cases hlv : verifyLightProof now light agentId ⟨options.maxAgeMs, options.minDepth⟩ <;>
    simp [progressiveVerify, hlv]

/-- Claim C7, counterexample to the original statement — a high-value
request whose light proof fails (here: wrong agent identifier) is
refused with reason `light_verification_failed`, not
`high_value_requires_full_verification`. -/
theorem C7_counterexample :
    (progressiveVerify 0 ⟨"agentA", "t", [], 0⟩ false "agentB" false
        ⟨none, some true, none, none⟩).canProceed = false ∧
    (progressiveVerify 0 ⟨"agentA", "t", [], 0⟩ false "agentB" false
        ⟨none, some true, none, none⟩).reason ≠
      "high_value_requires_full_verification" := by
  decide

/-- Claim C4 — at the failing input (no secure random source), both
generators silently fall back to the `Math.random` stream instead of
failing: with the weak byte stream `i ↦ i`, `generatePrivateKey`
returns a key made of those bytes and `generateUUIDv7` a well-formed
identifier, contradicting the requirement (and SECURITY.md) that both
must fail. -/
theorem C4_weak_fallback :
    generatePrivateKey ⟨none, fun i => i⟩ =
      "0x000102030405060708090a0b0c0d0e0f101112131415161718191a1b1c1d1e1f" ∧
    generateUUIDv7 ⟨none, fun i => i⟩ 0 = "00000000-0000-7001-8203-040506070809" := by
  constructor <;> rfl

/-- Chain verification is valid exactly when it accumulated no error. -/
theorem verifyCausalChain_fst_iff (chain : List CausalChainElement)
    (expectedFinalHash : String) (requireNullRoot : Bool) :
    (verifyCausalChain chain expectedFinalHash requireNullRoot).1 = true ↔
    (verifyCausalChain chain expectedFinalHash requireNullRoot).2 = [] := by
  unfold verifyCausalChain
  by_cases hc : chain.length == 0
  · simp [hc]
  · simp only [hc, if_false, Bool.false_eq_true]
    generalize ((List.range chain.length).foldl _ _ : List String) = errors
    simp [List.length_eq_zero]

/-- Claim C9 — a proof whose causal chain is empty is always invalid:
the error list contains `"Causal chain is empty"` and no action counts
as verified. -/
theorem C9_empty_chain_rejected (proof : CausalProof) (ea pk : String)
    (h : proof.causalChain = []) :
    (verifyProof proof ea pk).isValid = false ∧
    "Causal chain is empty" ∈ (verifyProof proof ea pk).errors ∧
    (verifyProof proof ea pk).verifiedActions = 0 := by
  have hcc : verifyCausalChain ([] : List CausalChainElement)
      proof.targetEvent.eventHash false = (false, ["Causal chain is empty"]) := rfl
  simp only [verifyProof, h, hcc]
  split_ifs <;> simp_all

theorem C9_witness :
    (verifyProof c9Proof "0xA" "pk").isValid = false ∧
    "Causal chain is empty" ∈ (verifyProof c9Proof "0xA" "pk").errors ∧
    (verifyProof c9Proof "0xA" "pk").verifiedActions = 0 :=
  C9_empty_chain_rejected c9Proof "0xA" "pk" rfl

/-- The error list of `verifyProof` is the concatenation of the five
checks' contributions, in check order. -/
theorem verifyProof_errors_eq (proof : CausalProof) (ea pk : String) :
    (verifyProof proof ea pk).errors =
      (if proof.targetEvent.agentId = ea then []
       else ["Agent ID mismatch: expected " ++ ea ++ ", got " ++ proof.targetEvent.agentId]) ++
      (if MerkleTree.verifyProof proof.targetEvent.eventHash proof.proofPath
          proof.treeRootHash then []
       else ["Merkle inclusion proof verification failed"]) ++
      (if ecdsaVerify proof.treeRootHash proof.agentSignature pk then []
       else ["Agent signature verification failed"]) ++
      (if sha3Concat [some proof.targetEvent.agentId, some proof.targetEvent.actionType,
          some proof.targetEvent.payloadHash, proof.targetEvent.predecessorHash,
          some (toString proof.targetEvent.timestamp)] = proof.targetEvent.eventHash then []
       else ["Target event hash integrity check failed"]) ++
      (if (verifyCausalChain proof.causalChain proof.targetEvent.eventHash false).1 then []
       else (verifyCausalChain proof.causalChain proof.targetEvent.eventHash false).2) := by
  simp only [verifyProof]
  by_cases h1 : proof.targetEvent.agentId = ea <;>
  by_cases h2 : MerkleTree.verifyProof proof.targetEvent.eventHash proof.proofPath
    proof.treeRootHash = true <;>
  by_cases h3 : ecdsaVerify proof.treeRootHash proof.agentSignature pk = true <;>
  by_cases h4 : sha3Concat [some proof.targetEvent.agentId, some proof.targetEvent.actionType,
    some proof.targetEvent.payloadHash, proof.targetEvent.predecessorHash,
    some (toString proof.targetEvent.timestamp)] = proof.targetEvent.eventHash <;>
  by_cases h5 : (verifyCausalChain proof.causalChain proof.targetEvent.eventHash false).1
    = true <;>
  (try rw [h1] at h4) <;>
  simp [h1, h2, h3, h4, h5]

/-- Claim C2 — `verifyProof` is a total function (the embedding returns
a plain result record; every fallible primitive it calls returns a
sentinel instead of propagating): its verdict is `true` exactly when the
error list is empty, which happens exactly when all five checks pass,
and `verifiedActions` is the chain length exactly when the
chain-integrity check passed. -/
theorem C2_verifyProof_structure (proof : CausalProof) (ea pk : String) :
    ((verifyProof proof ea pk).isValid = true ↔ (verifyProof proof ea pk).errors = []) ∧
    ((verifyProof proof ea pk).isValid = true ↔
      (proof.targetEvent.agentId = ea ∧
       MerkleTree.verifyProof proof.targetEvent.eventHash proof.proofPath
         proof.treeRootHash = true ∧
       ecdsaVerify proof.treeRootHash proof.agentSignature pk = true ∧
       sha3Concat [some proof.targetEvent.agentId, some proof.targetEvent.actionType,
         some proof.targetEvent.payloadHash, proof.targetEvent.predecessorHash,
         some (toString proof.targetEvent.timestamp)] = proof.targetEvent.eventHash ∧
       (verifyCausalChain proof.causalChain proof.targetEvent.eventHash false).1 = true)) ∧
    (verifyProof proof ea pk).verifiedActions =
      (if (verifyCausalChain proof.causalChain proof.targetEvent.eventHash false).1
       then proof.causalChain.length else 0) := by
  have hIV : (verifyProof proof ea pk).isValid =
      ((verifyProof proof ea pk).errors.length == 0) := rfl
  have hVA : (verifyProof proof ea pk).verifiedActions =
      (if (verifyCausalChain proof.causalChain proof.targetEvent.eventHash false).1
       then proof.causalChain.length else 0) := rfl
  have hne : (verifyCausalChain proof.causalChain proof.targetEvent.eventHash false).1 ≠ true →
      (verifyCausalChain proof.causalChain proof.targetEvent.eventHash false).2 ≠ [] :=
    fun h5 hnil => h5 ((verifyCausalChain_fst_iff _ _ _).mpr hnil)
  refine ⟨?_, ?_, hVA⟩
  · rw [hIV]
    simp [List.length_eq_zero]
  · rw [hIV, verifyProof_errors_eq]
    by_cases h1 : proof.targetEvent.agentId = ea <;>
    by_cases h2 : MerkleTree.verifyProof proof.targetEvent.eventHash proof.proofPath
      proof.treeRootHash = true <;>
    by_cases h3 : ecdsaVerify proof.treeRootHash proof.agentSignature pk = true <;>
    by_cases h4 : sha3Concat [some proof.targetEvent.agentId, some proof.targetEvent.actionType,
      some proof.targetEvent.payloadHash, proof.targetEvent.predecessorHash,
      some (toString proof.targetEvent.timestamp)] = proof.targetEvent.eventHash <;>
    by_cases h5 : (verifyCausalChain proof.causalChain proof.targetEvent.eventHash false).1
      = true <;>
    (try rw [h1] at h4) <;>
    simp [h1, h2, h3, h4, h5, List.length_eq_zero, hne]

/-- The temporal-ordering pass of `verifyLightProof` accepts exactly the
chains whose timestamps are non-decreasing between adjacent elements. -/
theorem lightMonotone_iff (chain : List LightChainElement) :
    ((List.range chain.length).all fun i =>
      if i == 0 then true
      else match chain.get? i, chain.get? (i - 1) with
        | some cur, some prev => decide (¬ cur.timestamp < prev.timestamp)
        | _, _ => true) = true ↔
    List.Chain' (fun a b => a.timestamp ≤ b.timestamp) chain := by
  rw [List.all_eq_true, List.chain'_iff_get]
  constructor
  · intro h i hi
    have hi1 : i + 1 < chain.length := by omega
    have hmem : i + 1 ∈ List.range chain.length := List.mem_range.mpr hi1
    have hstep := h _ hmem
    rw [List.get?_eq_get hi1, List.get?_eq_get (by omega : i + 1 - 1 < chain.length)] at hstep
    simp only [Nat.add_sub_cancel] at hstep
    simp only [if_neg (by simp : ¬(i + 1 == 0) = true)] at hstep
    have := of_decide_eq_true hstep
    omega
  · intro h i hmem
    rw [List.mem_range] at hmem
    cases i with
    | zero => simp
    | succ j =>
      have hj : j < chain.length - 1 := by omega
      have hstep := h j hj
      simp only [if_neg (by simp : ¬(j + 1 == 0) = true)]
      rw [List.get?_eq_get hmem, List.get?_eq_get (by omega : j + 1 - 1 < chain.length)]
      simp only [Nat.add_sub_cancel]
      exact decide_eq_true (by omega)

/-- Claim C6 — the light check passes exactly when: the agent matches,
the proof is no older than `maxAgeMs` (default 300000), the chain is at
least `minDepth` long (default 3), the target digest appears in the
chain and is the last element's digest, and the chain's timestamps are
monotonically non-decreasing. -/
theorem C6_verifyLightProof_iff (now : Int) (proof : LightProof) (ea : String)
    (options : LightOptions) :
    verifyLightProof now proof ea options = true ↔
      (proof.agentId = ea ∧
       now - proof.timestamp ≤ options.maxAgeMs.getD 300000 ∧
       options.minDepth.getD 3 ≤ proof.causalChain.length ∧
       (∃ el ∈ proof.causalChain, el.eventHash = proof.targetEventHash) ∧
       (proof.causalChain.getLast?).map (·.eventHash) = some proof.targetEventHash ∧
       List.Chain' (fun a b => a.timestamp ≤ b.timestamp) proof.causalChain) := by
  have hmono := lightMonotone_iff proof.causalChain
  constructor
  · intro h
    simp only [verifyLightProof] at h
    split_ifs at h with hc1 hc2 hc3 hc4 hc5
    refine ⟨by simpa using hc1, not_lt.mp hc2, Nat.not_lt.mp hc3, ?_, ?_, hmono.mp h⟩
    · have : (proof.causalChain.any fun el => el.eventHash == proof.targetEventHash)
          = true := by simpa using hc4
      simpa [List.any_eq_true] using this
    · simpa using hc5
  · rintro ⟨ha, hb, hc, hd, he, hf⟩
    simp only [verifyLightProof]
    split_ifs with hc1 hc2 hc3 hc4 hc5
    · simp [ha] at hc1
    · exact absurd hb (not_le.mpr hc2)
    · exact absurd hc (Nat.not_le.mpr hc3)
    · have : (proof.causalChain.any fun el => el.eventHash == proof.targetEventHash)
          = true := by
        simpa [List.any_eq_true] using hd
      simp [this] at hc4
    · exact absurd he (by simpa using hc5)
    · exact hmono.mpr hf

/-- Claim C3, evaluated at the failing input — `getEventChain` with max
depth `d = 2` on a three-event chain returns all three events: the walk
gathers up to `d` predecessors (loop guard `chain.length < depth`) and
then appends the target, so the result has `d + 1` elements, where the
claim (with the spec and the registry test's own `depth`-limit
expectation) allows at most `d`. -/
theorem C3_depth_limit_exceeded :
    (c3Registry.map fun st => (getEventChain st "id3" 2).length) = Except.ok 3 := by
  rfl

theorem mapHas_eq_keys (m : List (String × CausalEvent)) (key : String) :
    mapHas m key = (m.map Prod.fst).any (· == key) := by
  induction m with
  | nil => rfl
  | cons a as ih =>
    by_cases h : a.1 == key
    · simp [mapHas, List.find?, h]
    · simp only [mapHas, List.find?, h, List.map_cons, List.any_cons]
      rw [← ih]
      simp [mapHas, h]

/-- One registration step is observationally deterministic: on related
states the same input either fails in both registries or succeeds in
both with the same event digest and the same new root, leaving related
states. -/
theorem registerEvent_obs (st1 st2 : RegState) (h : obsEq st1 st2) (input : EventInput)
    (id1 id2 : String) :
    (match registerEvent st1 input id1, registerEvent st2 input id2 with
     | Except.error _, Except.error _ => True
     | Except.ok (st1', e1), Except.ok (st2', e2) =>
       e1.eventHash = e2.eventHash ∧ e1.treeRootHash = e2.treeRootHash ∧ obsEq st1' st2'
     | _, _ => False) := by
  obtain ⟨hA, hT, hK⟩ := h
  have hPred : ∀ p, mapHas st2.eventsByHash p = mapHas st1.eventsByHash p := by
    intro p
    rw [mapHas_eq_keys, mapHas_eq_keys, hK]
  by_cases h1 : input.agentId = st1.agentId
  · by_cases h3 : (["request", "response", "error", "state_transition"] : List String).contains
      input.actionType
    · have h3' : input.actionType = "request" ∨ input.actionType = "response" ∨
          input.actionType = "error" ∨ input.actionType = "state_transition" := by
        simpa using h3
      cases hpred : input.predecessorHash with
      | some p =>
        by_cases h2 : mapHas st1.eventsByHash p
        · rcases h3' with h4 | h4 | h4 | h4 <;>
            simp [registerEvent, registerEvent.registerValidated, h1, ← hA, hpred, h2, hPred,
              h4, ← hT, obsEq, hK]
        · simp [registerEvent, hpred, h1, ← hA, h2, hPred]
      | none =>
        rcases h3' with h4 | h4 | h4 | h4 <;>
          simp [registerEvent, registerEvent.registerValidated, h1, ← hA, hpred, h4, ← hT,
            obsEq, hK]
    · have h3' : ¬ input.actionType = "request" ∧ ¬ input.actionType = "response" ∧
          ¬ input.actionType = "error" ∧ ¬ input.actionType = "state_transition" := by
        constructor
        · intro hx; exact h3 (by simp [hx])
        constructor
        · intro hx; exact h3 (by simp [hx])
        constructor
        · intro hx; exact h3 (by simp [hx])
        · intro hx; exact h3 (by simp [hx])
      cases hpred : input.predecessorHash with
      | some p =>
        by_cases h2 : mapHas st1.eventsByHash p
        · simp [registerEvent, registerEvent.registerValidated, h1, ← hA, hpred, h2, hPred,
            h3'.1, h3'.2.1, h3'.2.2.1, h3'.2.2.2]
        · simp [registerEvent, hpred, h1, ← hA, h2, hPred]
      | none =>
        simp [registerEvent, registerEvent.registerValidated, h1, ← hA, hpred,
          h3'.1, h3'.2.1, h3'.2.2.1, h3'.2.2.2]
  · simp [registerEvent, h1, ← hA]

theorem runEvents_obs (inputs : List EventInput) (st1 st2 : RegState) (h : obsEq st1 st2)
    (ids1 ids2 : Nat → String) (k1 k2 : Nat) :
    runEvents st1 ids1 k1 inputs = runEvents st2 ids2 k2 inputs := by
  induction inputs generalizing st1 st2 k1 k2 with
  | nil => rfl
  | cons input rest ih =>
    have hstep := registerEvent_obs st1 st2 h input (ids1 k1) (ids2 k2)
    rcases hE1 : registerEvent st1 input (ids1 k1) with m1 | ⟨st1', e1⟩ <;>
    rcases hE2 : registerEvent st2 input (ids2 k2) with m2 | ⟨st2', e2⟩ <;>
      rw [hE1, hE2] at hstep
    · simp [runEvents, hE1, hE2]
    · exact absurd hstep (by simp)
    · exact absurd hstep (by simp)
    · obtain ⟨hh, hr, h'⟩ := hstep
      simp only [runEvents, hE1, hE2]
      rw [hh, hr, ih st1' st2' h']

/-- Claim C8 — registry determinism: two registries bound to the same
agent and fed the same `registerEvent` inputs produce, event for event,
identical event digests and identical tree root digests, whatever
identifiers the two runs mint. -/
theorem C8_registry_determinism (agentId : String) (inputs : List EventInput)
    (ids1 ids2 : Nat → String) :
    (mkRegistry agentId).map (fun st => runEvents st ids1 0 inputs) =
    (mkRegistry agentId).map (fun st => runEvents st ids2 0 inputs) := by
  unfold mkRegistry
  by_cases h : agentId == ""
  · simp only [h, if_true, Except.map]
  · simp only [h, Bool.false_eq_true, if_false, Except.map]
    exact congrArg Except.ok (runEvents_obs inputs _ _ ⟨rfl, rfl, rfl⟩ ids1 ids2 0 0)

/-! ## Structural lemmas for the Merkle commitment -/

theorem ceilLog2Go_le_pow (n : Nat) :
    ∀ (fuel k : Nat), n ≤ 2 ^ (k + fuel) → n ≤ 2 ^ ceilLog2Go n fuel k
  | 0, _, h => h
  | fuel + 1, k, h => by
    unfold ceilLog2Go
    by_cases hk : n ≤ 2 ^ k
    · simp [hk]
    · simp only [hk, if_false]
      exact ceilLog2Go_le_pow n fuel (k + 1)
        (by rw [show k + 1 + fuel = k + (fuel + 1) by omega]; exact h)

theorem ceilLog2_le_pow (n : Nat) : n ≤ 2 ^ ceilLog2 n :=
  ceilLog2Go_le_pow n n 0 (Nat.le_of_lt (by simpa using Nat.lt_two_pow n))

theorem ceilLog2Go_min (n : Nat) :
    ∀ (fuel k : Nat), (∀ j, j < k → 2 ^ j < n) → ∀ j, j < ceilLog2Go n fuel k → 2 ^ j < n
  | 0, _, hpre, j, hj => hpre j hj
  | fuel + 1, k, hpre, j, hj => by
    unfold ceilLog2Go at hj
    by_cases hk : n ≤ 2 ^ k
    · rw [if_pos hk] at hj
      exact hpre j hj
    · rw [if_neg hk] at hj
      refine ceilLog2Go_min n fuel (k + 1) (fun i hik => ?_) j hj
      rcases Nat.lt_succ_iff_lt_or_eq.mp hik with h | h
      · exact hpre i h
      · subst h; omega

theorem ceilLog2_min (n : Nat) : ∀ j, j < ceilLog2 n → 2 ^ j < n :=
  ceilLog2Go_min n n 0 (fun j hj => absurd hj (Nat.not_lt_zero j))

theorem ceilLog2_le (n c : Nat) (h : n ≤ 2 ^ c) : ceilLog2 n ≤ c := by
  by_contra hlt
  push_neg at hlt
  exact absurd h (not_le.mpr (ceilLog2_min n c hlt))

theorem ceilLog2_pos (n : Nat) (h : 2 ≤ n) : 1 ≤ ceilLog2 n := by
  by_contra h0
  push_neg at h0
  have h1 : ceilLog2 n = 0 := by omega
  have := ceilLog2_le_pow n
  rw [h1] at this
  omega

theorem countNodesAtLevel_eq (lc k : Nat) :
    countNodesAtLevel lc k = (lc + 2 ^ k - 1) / 2 ^ k := by
  induction k with
  | zero => simp [countNodesAtLevel]
  | succ k ih =>
    have h2 : 0 < 2 ^ k := pow_pos (by norm_num) k
    have hnum : lc + 2 ^ k - 1 + 2 ^ k = lc + 2 ^ (k + 1) - 1 := by
      rw [pow_succ]; omega
    rw [countNodesAtLevel, ih, ← Nat.add_div_right (lc + 2 ^ k - 1) h2,
      Nat.div_div_eq_div_mul, hnum, ← pow_succ]

theorem countNodesAtLevel_succ_leaf (m k : Nat) :
    countNodesAtLevel (m + 1) k = m / 2 ^ k + 1 := by
  have h2 : 0 < 2 ^ k := pow_pos (by norm_num) k
  rw [countNodesAtLevel_eq, show m + 1 + 2 ^ k - 1 = m + 2 ^ k by omega,
    Nat.add_div_right m h2]

theorem div_le_countNodesAtLevel (m k : Nat) : m / 2 ^ k ≤ countNodesAtLevel m k := by
  have h2 : 0 < 2 ^ k := pow_pos (by norm_num) k
  rw [countNodesAtLevel_eq]
  exact Nat.div_le_div_right (by omega)

theorem countNodesAtLevel_le_div_succ (m k : Nat) :
    countNodesAtLevel m k ≤ m / 2 ^ k + 1 := by
  have h2 : 0 < 2 ^ k := pow_pos (by norm_num) k
  rw [countNodesAtLevel_eq, ← Nat.add_div_right m h2]
  exact Nat.div_le_div_right (by omega)

theorem countNodesAtLevel_eq_one (n k : Nat) (hn : 1 ≤ n) (hk : n ≤ 2 ^ k) :
    countNodesAtLevel n k = 1 := by
  have h2 : 0 < 2 ^ k := pow_pos (by norm_num) k
  rw [countNodesAtLevel_eq]
  have h1 : 1 * 2 ^ k ≤ n + 2 ^ k - 1 := by omega
  have hlt : n + 2 ^ k - 1 < (1 + 1) * 2 ^ k := by omega
  exact Nat.div_eq_of_lt_le h1 hlt

theorem two_le_countNodesAtLevel (n k : Nat) (h : 2 ^ k < n) :
    2 ≤ countNodesAtLevel n k := by
  have h2 : 0 < 2 ^ k := pow_pos (by norm_num) k
  rw [countNodesAtLevel_eq]
  have : 2 * 2 ^ k ≤ n + 2 ^ k - 1 := by omega
  calc 2 = 2 * 2 ^ k / 2 ^ k := by rw [Nat.mul_div_cancel _ h2]
  _ ≤ (n + 2 ^ k - 1) / 2 ^ k := Nat.div_le_div_right this

theorem chunkPair_length : ∀ xs : List String, (chunkPair xs).length = (xs.length + 1) / 2
  | [] => by simp [chunkPair]
  | [a] => by simp [chunkPair]
  | _ :: _ :: rest => by
    simp only [chunkPair, List.length_cons, chunkPair_length rest]
    omega

theorem levelNodes_length (L : List String) (k : Nat) :
    (levelNodes L k).length = countNodesAtLevel L.length k := by
  induction k with
  | zero => rfl
  | succ k ih => rw [levelNodes, chunkPair_length, ih, countNodesAtLevel]

theorem chunkPair_getD_pair : ∀ (xs : List String) (j : Nat), 2 * j + 1 < xs.length →
    (chunkPair xs).getD j "" = hashPair (xs.getD (2 * j) "") (xs.getD (2 * j + 1) "")
  | [], j, h => by simp at h
  | [_], j, h => by simp at h
  | _ :: _ :: _, 0, _ => by simp [chunkPair]
  | a :: b :: rest, j + 1, h => by
    have h' : 2 * j + 1 < rest.length := by
      simp only [List.length_cons] at h; omega
    have hstep : (chunkPair (a :: b :: rest)).getD (j + 1) "" = (chunkPair rest).getD j "" := by
      simp [chunkPair]
    rw [hstep, chunkPair_getD_pair rest j h',
      show 2 * (j + 1) = 2 * j + 1 + 1 by omega]
    simp only [List.getD_cons_succ]

theorem chunkPair_getD_promote : ∀ (xs : List String) (j : Nat), 2 * j < xs.length →
    xs.length ≤ 2 * j + 1 → (chunkPair xs).getD j "" = xs.getD (2 * j) ""
  | [], j, h, _ => by simp at h
  | [a], 0, _, _ => by simp [chunkPair]
  | [_], j + 1, h, h' => by simp at h
  | _ :: _ :: rest, 0, _, h' => by simp at h'
  | a :: b :: rest, j + 1, h, h' => by
    have hl : 2 * j < rest.length := by simp only [List.length_cons] at h; omega
    have hr : rest.length ≤ 2 * j + 1 := by simp only [List.length_cons] at h'; omega
    have hstep : (chunkPair (a :: b :: rest)).getD (j + 1) "" = (chunkPair rest).getD j "" := by
      simp [chunkPair]
    rw [hstep, chunkPair_getD_promote rest j hl hr,
      show 2 * (j + 1) = 2 * j + 1 + 1 by omega]
    simp only [List.getD_cons_succ]

theorem getD_take_of_lt : ∀ (l : List String) (q j : Nat), j < q →
    (l.take q).getD j "" = l.getD j ""
  | [], _, _, _ => by simp
  | _ :: _, q + 1, 0, _ => by simp
  | a :: l, q + 1, j + 1, h => by
    simp only [List.take_succ_cons, List.getD_cons_succ]
    exact getD_take_of_lt l q j (by omega)

theorem chunkPair_take_append_even : ∀ (q : Nat) (xs : List String) (p : String),
    q % 2 = 0 → q ≤ xs.length →
    chunkPair (xs.take q ++ [p]) = (chunkPair xs).take (q / 2) ++ [p]
  | 0, xs, p, _, _ => by simp [chunkPair]
  | 1, _, _, hpar, _ => by omega
  | _ + 2, [], _, _, hle => by simp at hle
  | _ + 2, [_], _, _, hle => by simp at hle
  | q + 2, a :: b :: rest, p, hpar, hle => by
    have hle' : q ≤ rest.length := by simp only [List.length_cons] at hle; omega
    have hq : q % 2 = 0 := by omega
    simp [List.take_succ_cons, chunkPair,
      chunkPair_take_append_even q rest p hq hle',
      show (q + 2) / 2 = q / 2 + 1 by omega]

theorem chunkPair_take_append_odd : ∀ (q : Nat) (xs : List String) (p : String),
    q % 2 = 1 → q ≤ xs.length →
    chunkPair (xs.take q ++ [p]) =
      (chunkPair xs).take (q / 2) ++ [hashPair (xs.getD (q - 1) "") p]
  | 0, _, _, hpar, _ => by omega
  | 1, [], _, _, hle => by simp at hle
  | 1, a :: xs, p, _, _ => by simp [chunkPair]
  | _ + 2, [], _, _, hle => by simp at hle
  | _ + 2, [_], _, _, hle => by simp at hle
  | q + 2, a :: b :: rest, p, hpar, hle => by
    have hle' : q ≤ rest.length := by simp only [List.length_cons] at hle; omega
    have hq : q % 2 = 1 := by omega
    obtain ⟨r, rfl⟩ : ∃ r, q = r + 1 := ⟨q - 1, by omega⟩
    simp [List.take_succ_cons, chunkPair,
      chunkPair_take_append_odd (r + 1) rest p hq hle',
      show (r + 1 + 2) / 2 = (r + 1) / 2 + 1 by omega,
      show r + 1 + 2 - 1 = r + 1 + 1 by omega,
      show r + 1 - 1 = r by omega]

theorem levelNodes_snoc (L : List String) (h : String) : ∀ k,
    levelNodes (L ++ [h]) k =
      (levelNodes L k).take (L.length / 2 ^ k) ++ [newPathHash L h k]
  | 0 => by simp [levelNodes, newPathHash]
  | k + 1 => by
    have ih := levelNodes_snoc L h k
    have hq : L.length / 2 ^ k ≤ (levelNodes L k).length := by
      rw [levelNodes_length]; exact div_le_countNodesAtLevel _ _
    have hdiv : L.length / 2 ^ k / 2 = L.length / 2 ^ (k + 1) := by
      rw [Nat.div_div_eq_div_mul, pow_succ]
    show chunkPair (levelNodes (L ++ [h]) k) = _
    rw [ih]
    by_cases hpar : (L.length / 2 ^ k) % 2 = 0
    · rw [chunkPair_take_append_even _ _ _ hpar hq, hdiv]
      show _ = (levelNodes L (k + 1)).take (L.length / 2 ^ (k + 1)) ++
        [newPathHash L h (k + 1)]
      rw [show newPathHash L h (k + 1) = newPathHash L h k by
        simp only [newPathHash]; rw [if_neg (by omega)]]
      rfl
    · have hpar' : (L.length / 2 ^ k) % 2 = 1 := by omega
      rw [chunkPair_take_append_odd _ _ _ hpar' hq, hdiv]
      show _ = (levelNodes L (k + 1)).take (L.length / 2 ^ (k + 1)) ++
        [newPathHash L h (k + 1)]
      rw [show newPathHash L h (k + 1) =
          hashPair ((levelNodes L k).getD (L.length / 2 ^ k - 1) "") (newPathHash L h k) by
        simp only [newPathHash]; rw [if_pos hpar']]
      rfl

theorem nodesGet_set_self (nodes : NodeMap) (key : Nat × Nat) (v : String) :
    nodesGet (nodesSet nodes key v) key = some v := by
  simp [nodesGet, nodesSet, List.find?]

theorem nodesGet_set_ne (nodes : NodeMap) (key key' : Nat × Nat) (v : String)
    (h : key' ≠ key) : nodesGet (nodesSet nodes key v) key' = nodesGet nodes key' := by
  have hb : (key == key') = false := by
    simp only [beq_eq_false_iff_ne, ne_eq]
    exact fun e => h e.symm
  simp [nodesGet, nodesSet, List.find?, hb]

theorem take_levelNodes_length (L : List String) (k : Nat) :
    ((levelNodes L k).take (L.length / 2 ^ k)).length = L.length / 2 ^ k := by
  rw [List.length_take, levelNodes_length]
  have := div_le_countNodesAtLevel L.length k
  omega

theorem levelNodes_snoc_getD_lt (L : List String) (h : String) (k j : Nat)
    (hj : j < L.length / 2 ^ k) :
    (levelNodes (L ++ [h]) k).getD j "" = (levelNodes L k).getD j "" := by
  rw [levelNodes_snoc,
    List.getD_append _ _ _ _ (by rw [take_levelNodes_length]; exact hj),
    getD_take_of_lt _ _ _ hj]

theorem levelNodes_snoc_getD_last (L : List String) (h : String) (k : Nat) :
    (levelNodes (L ++ [h]) k).getD (L.length / 2 ^ k) "" = newPathHash L h k := by
  rw [levelNodes_snoc,
    List.getD_append_right _ _ _ _ (le_of_eq (take_levelNodes_length L k)),
    take_levelNodes_length]
  simp

theorem midInv_post (L : List String) (h : String) (c : Nat) (nodes : NodeMap)
    (hmid : MidInv L h c nodes) (htop : topLevel (L.length + 1) ≤ c) :
    PostInv L h nodes := by
  obtain ⟨h1, _, h3, h4⟩ := hmid
  refine ⟨fun k hk j hj => h1 k (le_trans hk htop) j hj, fun k j hj => ?_⟩
  by_cases hkc : k ≤ c
  · exact h3 k j hkc hj
  · refine h4 k j (by omega) ?_
    have := countNodesAtLevel_le_div_succ L.length k
    omega

theorem topLevel_le_of_small (m c : Nat) (hc : countNodesAtLevel (m + 1) c ≤ 1) :
    topLevel (m + 1) ≤ c := by
  rw [countNodesAtLevel_succ_leaf] at hc
  have hq : m / 2 ^ c = 0 := Nat.le_zero.mp (Nat.le_of_succ_le_succ hc)
  have h2 : 0 < 2 ^ c := pow_pos (by norm_num) c
  have hm : m < 2 ^ c := by
    by_contra hge
    push_neg at hge
    have : 1 ≤ m / 2 ^ c := (Nat.one_le_div_iff h2).mpr hge
    omega
  exact ceilLog2_le (m + 1) c (by omega)

theorem div_pow_eq_zero_of_top_lt (m k : Nat) (hk : topLevel m < k) : m / 2 ^ k = 0 := by
  have h1 : m ≤ 2 ^ topLevel m := ceilLog2_le_pow m
  have h2 : 2 ^ topLevel m < 2 ^ k := Nat.pow_lt_pow_right (by norm_num) hk
  exact Nat.div_eq_of_lt (by omega)

theorem appendLoop_spec (L : List String) (h : String) :
    ∀ (fuel c : Nat) (nodes : NodeMap), MidInv L h c nodes →
      topLevel (L.length + 1) ≤ c + fuel →
      PostInv L h
        (appendLoop (L.length + 1) fuel nodes (L.length / 2 ^ c) c (newPathHash L h c))
  | 0, c, nodes, hmid, htop => midInv_post L h c nodes hmid htop
  | fuel + 1, c, nodes, hmid, htop => by
    obtain ⟨h1, h2, h3, h4⟩ := hmid
    have hdiv : L.length / 2 ^ c / 2 = L.length / 2 ^ (c + 1) := by
      rw [Nat.div_div_eq_div_mul, pow_succ]
    -- In either parity branch the loop stores the next path hash at the
    -- parent slot of the next level; this is the updated invariant.
    have hnext : MidInv L h (c + 1)
        (nodesSet nodes (c + 1, L.length / 2 ^ (c + 1)) (newPathHash L h (c + 1))) := by
      refine ⟨?_, ?_, ?_, ?_⟩
      · intro k hk j hj
        rcases Nat.lt_succ_iff_lt_or_eq.mp (Nat.lt_succ_of_le hk) with hkc | hkc
        · rw [nodesGet_set_ne _ _ _ _ (by simp; omega)]
          exact h1 k (by omega) j hj
        · subst hkc
          rcases Nat.lt_or_ge j (L.length / 2 ^ (c + 1)) with hjlt | hjge
          · rw [nodesGet_set_ne _ _ _ _ (by simp; omega)]
            by_cases hktop : c + 1 ≤ topLevel L.length
            · rw [h2 (c + 1) (by omega) hktop j
                (lt_of_lt_of_le hjlt (div_le_countNodesAtLevel _ _))]
              rw [levelNodes_snoc_getD_lt L h (c + 1) j hjlt]
            · exact absurd hjlt (by
                rw [div_pow_eq_zero_of_top_lt L.length (c + 1) (by omega)]
                omega)
          · have hje : j = L.length / 2 ^ (c + 1) := by omega
            subst hje
            rw [nodesGet_set_self, levelNodes_snoc_getD_last]
      · intro k hk hktop j hj
        rw [nodesGet_set_ne _ _ _ _ (by simp; omega)]
        exact h2 k (by omega) hktop j hj
      · intro k j hk hj
        rcases Nat.lt_succ_iff_lt_or_eq.mp (Nat.lt_succ_of_le hk) with hkc | hkc
        · rw [nodesGet_set_ne _ _ _ _ (by simp; omega)]
          exact h3 k j (by omega) hj
        · subst hkc
          rw [nodesGet_set_ne _ _ _ _ (by simp; omega)]
          refine h4 (c + 1) j (by omega) ?_
          have := countNodesAtLevel_le_div_succ L.length (c + 1)
          omega
      · intro k j hk hj
        rw [nodesGet_set_ne _ _ _ _ (by simp; omega)]
        exact h4 k j (by omega) hj
    have hrest : ∀ nodes' : NodeMap, MidInv L h (c + 1) nodes' →
        PostInv L h (if countNodesAtLevel (L.length + 1) (c + 1) ≤ 1 then nodes'
          else appendLoop (L.length + 1) fuel nodes' (L.length / 2 ^ (c + 1)) (c + 1)
            (newPathHash L h (c + 1))) := by
      intro nodes' hmid'
      by_cases hguard : countNodesAtLevel (L.length + 1) (c + 1) ≤ 1
      · rw [if_pos hguard]
        exact midInv_post L h (c + 1) nodes' hmid'
          (topLevel_le_of_small L.length (c + 1) hguard)
      · rw [if_neg hguard]
        exact appendLoop_spec L h fuel (c + 1) nodes' hmid' (by omega)
    rw [appendLoop]
    by_cases hq : L.length / 2 ^ c % 2 = 0
    · have hqb : (L.length / 2 ^ c % 2 == 0) = true := by simp [hq]
      have hpath : newPathHash L h (c + 1) = newPathHash L h c := by
        simp only [newPathHash]
        rw [if_neg (by omega)]
      simp only [hqb, if_true, hdiv]
      rw [← hpath]
      exact hrest _ hnext
    · have hqb : (L.length / 2 ^ c % 2 == 0) = false := by simp [hq]
      have hq1 : 1 ≤ L.length / 2 ^ c := by
        rcases Nat.eq_zero_or_pos (L.length / 2 ^ c) with h0 | h0
        · rw [h0] at hq; simp at hq
        · exact h0
      have hsib : nodesGet nodes (c, L.length / 2 ^ c - 1) =
          some ((levelNodes L c).getD (L.length / 2 ^ c - 1) "") := by
        rw [h1 c (le_refl c) (L.length / 2 ^ c - 1) (by omega)]
        rw [levelNodes_snoc_getD_lt L h c _ (by omega)]
      have hpath : newPathHash L h (c + 1) =
          hashPair ((levelNodes L c).getD (L.length / 2 ^ c - 1) "") (newPathHash L h c) := by
        simp only [newPathHash]
        rw [if_pos (by omega)]
      simp only [hqb, Bool.false_eq_true, if_false, hsib, hdiv]
      rw [← hpath]
      exact hrest _ hnext

theorem append_Inv (L : List String) (t : MerkleTree) (hInv : Inv L t) (h : String) :
    Inv (L ++ [h]) (t.append h).1 := by
  obtain ⟨hleaves, hpres, habs⟩ := hInv
  subst hleaves
  set L := t.leaves with hL
  have hmid0 : MidInv L h 0 (nodesSet t.nodes (0, L.length) h) := by
    refine ⟨?_, ?_, ?_, ?_⟩
    · intro k hk j hj
      have hk0 : k = 0 := by omega
      subst hk0
      simp only [pow_zero, Nat.div_one] at hj
      rcases Nat.lt_or_ge j L.length with hjlt | hjge
      · rw [nodesGet_set_ne _ _ _ _ (by simp; omega)]
        rw [hpres 0 (Nat.zero_le _) j (by simpa [countNodesAtLevel] using hjlt)]
        show _ = some ((L ++ [h]).getD j "")
        rw [List.getD_append _ _ _ _ hjlt]
        rfl
      · have hje : j = L.length := by omega
        subst hje
        rw [nodesGet_set_self]
        show _ = some ((L ++ [h]).getD L.length "")
        rw [List.getD_append_right _ _ _ _ (le_refl _)]
        simp
    · intro k hk hktop j hj
      rw [nodesGet_set_ne _ _ _ _ (by simp; omega)]
      exact hpres k hktop j hj
    · intro k j hk hj
      have hk0 : k = 0 := by omega
      subst hk0
      simp only [pow_zero, Nat.div_one] at hj
      rw [nodesGet_set_ne _ _ _ _ (by simp; omega)]
      exact habs 0 j (by simpa [countNodesAtLevel] using (by omega : L.length ≤ j))
    · intro k j hk hj
      rw [nodesGet_set_ne _ _ _ _ (by simp; omega)]
      exact habs k j hj
  have hfuel : topLevel (L.length + 1) ≤ 0 + (L.length + 1) := by
    refine le_trans (ceilLog2_le (L.length + 1) (L.length + 1)
      (Nat.le_of_lt (by simpa using Nat.lt_two_pow (L.length + 1)))) (by omega)
  have hpost := appendLoop_spec L h (L.length + 1) 0 (nodesSet t.nodes (0, L.length) h)
    hmid0 hfuel
  simp only [pow_zero, Nat.div_one] at hpost
  obtain ⟨hp1, hp2⟩ := hpost
  refine ⟨by simp [MerkleTree.append], ?_, ?_⟩
  · intro k hk j hj
    have hlen : (L ++ [h]).length = L.length + 1 := by simp
    rw [hlen] at hk hj
    rw [countNodesAtLevel_succ_leaf] at hj
    show nodesGet (appendLoop (L ++ [h]).length (L ++ [h]).length
      (nodesSet t.nodes (0, L.length) h) L.length 0 h) (k, j) = _
    rw [hlen]
    have hcall : newPathHash L h 0 = h := rfl
    rw [← hcall]
    exact hp1 k hk j (by omega)
  · intro k j hj
    have hlen : (L ++ [h]).length = L.length + 1 := by simp
    rw [hlen] at hj
    rw [countNodesAtLevel_succ_leaf] at hj
    show nodesGet (appendLoop (L ++ [h]).length (L ++ [h]).length
      (nodesSet t.nodes (0, L.length) h) L.length 0 h) (k, j) = _
    rw [hlen]
    have hcall : newPathHash L h 0 = h := rfl
    rw [← hcall]
    exact hp2 k j (by omega)

theorem buildTree_Inv (L : List String) : Inv L (buildTree L) := by
  induction L using List.reverseRecOn with
  | nil =>
    refine ⟨rfl, ?_, ?_⟩
    · intro k _ j hj
      rw [countNodesAtLevel_eq] at hj
      simp only [List.length_nil] at hj
      have h2 : 0 < 2 ^ k := pow_pos (by norm_num) k
      rw [Nat.div_eq_of_lt (by omega)] at hj
      omega
    · intro k j _
      rfl
  | append_singleton L h ih =>
    have : buildTree (L ++ [h]) = ((buildTree L).append h).1 := by
      simp [buildTree, List.foldl_append]
    rw [this]
    exact append_Inv L (buildTree L) ih h

theorem getRootHash_eq (L : List String) (t : MerkleTree) (hInv : Inv L t) :
    t.getRootHash = funcRoot L := by
  obtain ⟨hleaves, hpres, habs⟩ := hInv
  unfold MerkleTree.getRootHash MerkleTree.getHeight funcRoot
  rw [hleaves]
  by_cases h0 : L.length = 0
  · simp [h0]
  by_cases h1 : L.length = 1
  · have htop : topLevel L.length = 0 := by
      rw [h1]
      exact Nat.le_zero.mp (ceilLog2_le 1 0 (by norm_num))
    simp [h0, h1, htop, levelNodes]
  · have hn2 : 2 ≤ L.length := by omega
    have hcnt : countNodesAtLevel L.length (topLevel L.length) = 1 :=
      countNodesAtLevel_eq_one _ _ (by omega) (ceilLog2_le_pow _)
    have hnode := hpres (topLevel L.length) (le_refl _) 0 (by omega)
    have hloop : rootLoop t (ceilLog2 L.length + 1) =
        some ((levelNodes L (topLevel L.length)).getD 0 "") := by
      rw [rootLoop, hleaves]
      rw [show nodesGet t.nodes (ceilLog2 L.length, 0) =
        some ((levelNodes L (topLevel L.length)).getD 0 "") from hnode]
      simp [show countNodesAtLevel L.length (ceilLog2 L.length) = 1 from hcnt]
    simp [h0, h1, hloop]

theorem div_lt_countNodesAtLevel (n i k : Nat) (hi : i < n) :
    i / 2 ^ k < countNodesAtLevel n k := by
  have h2 : 0 < 2 ^ k := pow_pos (by norm_num) k
  rw [countNodesAtLevel_eq]
  have h1 : i / 2 ^ k + 1 = (i + 2 ^ k) / 2 ^ k := (Nat.add_div_right i h2).symm
  have hle : (i + 2 ^ k) / 2 ^ k ≤ (n + 2 ^ k - 1) / 2 ^ k :=
    Nat.div_le_div_right (by omega)
  omega

theorem pathSpec_length (L : List String) (i : Nat) :
    (pathSpec L i).length = topLevel L.length := by
  simp [pathSpec]

theorem proofFold_spec (L : List String) (t : MerkleTree) (hInv : Inv L t) (i : Nat)
    (hi : i < L.length) : ∀ K, K ≤ topLevel L.length →
    (List.range K).foldl
      (fun (st : Nat × List ProofPathElement) level =>
        let currentIndex := st.1
        let isLeftNode := currentIndex % 2 == 0
        let siblingIndex := if isLeftNode then currentIndex + 1 else currentIndex - 1
        let currentHash := (nodesGet t.nodes (level, currentIndex)).getD ""
        match nodesGet t.nodes (level, siblingIndex) with
        | some siblingHash =>
          (currentIndex / 2, st.2 ++
            [⟨currentHash, siblingHash, if isLeftNode then Position.right else Position.left⟩])
        | none =>
          (currentIndex / 2, st.2 ++ [⟨currentHash, currentHash, Position.right⟩]))
      (i, []) =
    (i / 2 ^ K, (pathSpec L i).take K) := by
  obtain ⟨hleaves, hpres, habs⟩ := hInv
  intro K
  induction K with
  | zero => intro _; simp
  | succ K ih =>
    intro hK
    rw [List.range_succ, List.foldl_append, ih (by omega), List.foldl_cons, List.foldl_nil]
    have hq : i / 2 ^ K < countNodesAtLevel L.length K :=
      div_lt_countNodesAtLevel L.length i K hi
    have hcur := hpres K (by omega) (i / 2 ^ K) hq
    have hdiv : i / 2 ^ K / 2 = i / 2 ^ (K + 1) := by
      rw [Nat.div_div_eq_div_mul, pow_succ]
    have hKlen : K < (pathSpec L i).length := by rw [pathSpec_length]; omega
    have htake : (pathSpec L i).take (K + 1) =
        (pathSpec L i).take K ++ [(pathSpec L i).getD K ⟨"", "", Position.right⟩] := by
      rw [List.take_succ, List.getElem?_eq_getElem hKlen, List.getD_eq_getElem _ _ hKlen]
      simp
    have helem : (pathSpec L i).getD K ⟨"", "", Position.right⟩ =
        (if (i / 2 ^ K) % 2 = 0 then
          if i / 2 ^ K + 1 < countNodesAtLevel L.length K then
            (⟨(levelNodes L K).getD (i / 2 ^ K) "", (levelNodes L K).getD (i / 2 ^ K + 1) "",
              Position.right⟩ : ProofPathElement)
          else ⟨(levelNodes L K).getD (i / 2 ^ K) "", (levelNodes L K).getD (i / 2 ^ K) "",
            Position.right⟩
        else ⟨(levelNodes L K).getD (i / 2 ^ K) "", (levelNodes L K).getD (i / 2 ^ K - 1) "",
          Position.left⟩) := by
      rw [List.getD_eq_getElem _ _ (by rw [pathSpec_length]; omega)]
      simp [pathSpec, hK]
    rw [htake, helem]
    by_cases hpar : (i / 2 ^ K) % 2 = 0
    · have hparb : (i / 2 ^ K % 2 == 0) = true := by simp [hpar]
      by_cases hsib : i / 2 ^ K + 1 < countNodesAtLevel L.length K
      · have hs := hpres K (by omega) (i / 2 ^ K + 1) hsib
        simp [hparb, hcur, hs, hdiv, hpar, hsib]
      · have hs := habs K (i / 2 ^ K + 1) (by omega)
        simp [hparb, hcur, hs, hdiv, hpar, hsib]
    · have hparb : (i / 2 ^ K % 2 == 0) = false := by simp [hpar]
      have hs := hpres K (by omega) (i / 2 ^ K - 1)
        (Nat.lt_of_le_of_lt (Nat.sub_le _ _) hq)
      simp [hparb, hcur, hs, hdiv, hpar]

theorem getProofPath_eq (L : List String) (t : MerkleTree) (hInv : Inv L t) (i : Nat)
    (hi : i < L.length) : t.getProofPath i = Except.ok (pathSpec L i) := by
  have hfold := proofFold_spec L t hInv i hi
  obtain ⟨hleaves, hpres, habs⟩ := hInv
  unfold MerkleTree.getProofPath MerkleTree.getHeight
  rw [hleaves, if_neg (by omega : ¬ L.length ≤ i)]
  by_cases h1 : L.length = 1
  · have htop : topLevel L.length = 0 := by
      rw [h1]
      exact Nat.le_zero.mp (ceilLog2_le 1 0 (by norm_num))
    have hps : pathSpec L i = [] := by
      rw [← List.length_eq_zero, pathSpec_length, htop]
    simp [h1, hps]
  · by_cases h0 : L.length = 0
    · omega
    · have hb0 : (L.length == 0) = false := by simp [h0]
      have hb1 : (L.length == 1) = false := by simp [h1]
      simp only [hb0, hb1, Bool.false_eq_true, if_false, Nat.add_sub_cancel]
      have hfold2 := hfold (ceilLog2 L.length) (le_refl _)
      rw [hfold2]
      show Except.ok (List.take (ceilLog2 L.length) (pathSpec L i)) = _
      rw [List.take_of_length_le (show (pathSpec L i).length ≤ ceilLog2 L.length from
        le_of_eq (pathSpec_length L i))]

theorem clash_even (L : List String) (i K : Nat) (hcl : noSelfPairClash L i = true)
    (hK : K < topLevel L.length) (hpar : i / 2 ^ K % 2 = 0)
    (hsib : i / 2 ^ K + 1 < countNodesAtLevel L.length K) :
    ¬ (levelNodes L K).getD (i / 2 ^ K + 1) "" = (levelNodes L K).getD (i / 2 ^ K) "" := by
  rw [noSelfPairClash, List.all_eq_true] at hcl
  have := hcl K (List.mem_range.mpr hK)
  simp only [hpar, if_pos, hsib] at this
  simpa using this

theorem clash_odd (L : List String) (i K : Nat) (hcl : noSelfPairClash L i = true)
    (hK : K < topLevel L.length) (hpar : i / 2 ^ K % 2 = 1) :
    ¬ (levelNodes L K).getD (i / 2 ^ K - 1) "" = (levelNodes L K).getD (i / 2 ^ K) "" := by
  rw [noSelfPairClash, List.all_eq_true] at hcl
  have := hcl K (List.mem_range.mpr hK)
  simp only [hpar] at this
  simpa using this

theorem verifyFold_spec (L : List String) (i : Nat) (hi : i < L.length)
    (hcl : noSelfPairClash L i = true) : ∀ K, K ≤ topLevel L.length →
    ((pathSpec L i).take K).foldl
      (fun currentHash step =>
        if step.siblingHash == step.eventHash then currentHash
        else match step.position with
          | Position.left => hashPair step.siblingHash currentHash
          | Position.right => hashPair currentHash step.siblingHash)
      (L.getD i "") =
    (levelNodes L K).getD (i / 2 ^ K) "" := by
  intro K
  induction K with
  | zero => intro _; simp [levelNodes]
  | succ K ih =>
    intro hK
    have hKlen : K < (pathSpec L i).length := by rw [pathSpec_length]; omega
    have htake : (pathSpec L i).take (K + 1) =
        (pathSpec L i).take K ++ [(pathSpec L i).getD K ⟨"", "", Position.right⟩] := by
      rw [List.take_succ, List.getElem?_eq_getElem hKlen, List.getD_eq_getElem _ _ hKlen]
      simp
    have helem : (pathSpec L i).getD K ⟨"", "", Position.right⟩ =
        (if (i / 2 ^ K) % 2 = 0 then
          if i / 2 ^ K + 1 < countNodesAtLevel L.length K then
            (⟨(levelNodes L K).getD (i / 2 ^ K) "", (levelNodes L K).getD (i / 2 ^ K + 1) "",
              Position.right⟩ : ProofPathElement)
          else ⟨(levelNodes L K).getD (i / 2 ^ K) "", (levelNodes L K).getD (i / 2 ^ K) "",
            Position.right⟩
        else ⟨(levelNodes L K).getD (i / 2 ^ K) "", (levelNodes L K).getD (i / 2 ^ K - 1) "",
          Position.left⟩) := by
      have hKtop : K < topLevel L.length := by omega
      rw [List.getD_eq_getElem _ _ hKlen]
      simp [pathSpec, hKtop]
    have hq : i / 2 ^ K < countNodesAtLevel L.length K :=
      div_lt_countNodesAtLevel L.length i K hi
    have hlvl : (levelNodes L K).length = countNodesAtLevel L.length K :=
      levelNodes_length L K
    have hdiv : i / 2 ^ K / 2 = i / 2 ^ (K + 1) := by
      rw [Nat.div_div_eq_div_mul, pow_succ]
    rw [htake, List.foldl_append, ih (by omega), List.foldl_cons, List.foldl_nil, helem]
    have hnext : levelNodes L (K + 1) = chunkPair (levelNodes L K) := rfl
    by_cases hpar : i / 2 ^ K % 2 = 0
    · by_cases hsib : i / 2 ^ K + 1 < countNodesAtLevel L.length K
      · have hne := clash_even L i K hcl (by omega) hpar hsib
        have hbeq : ((levelNodes L K).getD (i / 2 ^ K + 1) "" ==
            (levelNodes L K).getD (i / 2 ^ K) "") = false := beq_eq_false_iff_ne.mpr hne
        rw [if_pos hpar, if_pos hsib]
        simp only [hbeq, Bool.false_eq_true, if_false]
        rw [hnext, ← hdiv,
          chunkPair_getD_pair (levelNodes L K) (i / 2 ^ K / 2)
            (by rw [hlvl]; omega)]
        rw [show 2 * (i / 2 ^ K / 2) = i / 2 ^ K by omega]
      · rw [if_pos hpar, if_neg hsib]
        simp only [beq_self_eq_true, if_true]
        rw [hnext, ← hdiv,
          chunkPair_getD_promote (levelNodes L K) (i / 2 ^ K / 2)
            (by rw [hlvl]; omega) (by rw [hlvl]; omega)]
        rw [show 2 * (i / 2 ^ K / 2) = i / 2 ^ K by omega]
    · have hpar1 : i / 2 ^ K % 2 = 1 := by omega
      have hne := clash_odd L i K hcl (by omega) hpar1
      have hbeq : ((levelNodes L K).getD (i / 2 ^ K - 1) "" ==
          (levelNodes L K).getD (i / 2 ^ K) "") = false := beq_eq_false_iff_ne.mpr hne
      rw [if_neg hpar]
      simp only [hbeq, Bool.false_eq_true, if_false]
      rw [hnext, ← hdiv,
        chunkPair_getD_pair (levelNodes L K) (i / 2 ^ K / 2)
          (by rw [hlvl]; omega)]
      rw [show 2 * (i / 2 ^ K / 2) + 1 = i / 2 ^ K by omega,
        show 2 * (i / 2 ^ K / 2) = i / 2 ^ K - 1 by omega]

theorem sha3Raw_startsWith (msg : List Nat) : ∃ s, sha3Raw msg = "0x" ++ s := by
  unfold sha3Raw
  rcases habs : absorb (List.replicate 25 0) msg with ⟨st, rest⟩
  exact ⟨_, rfl⟩

theorem sha3Raw_ne_empty (msg : List Nat) : sha3Raw msg ≠ "" := by
  obtain ⟨s, hs⟩ := sha3Raw_startsWith msg
  rw [hs]
  intro hcontra
  have hlen := congrArg String.length hcontra
  rw [String.length_append] at hlen
  simp [show ("0x" : String).length = 2 from rfl] at hlen

theorem hashPair_ne_empty (a b : String) : hashPair a b ≠ "" := by
  unfold hashPair sha3Concat
  by_cases h : strLe a b <;> simp [h, sha3Raw_ne_empty]

theorem funcRoot_ne_empty (L : List String) (hn : 1 ≤ L.length)
    (hne : ∀ s ∈ L, s ≠ "") : funcRoot L ≠ "" := by
  unfold funcRoot
  rw [if_neg (by omega)]
  by_cases h1 : L.length = 1
  · have htop : topLevel L.length = 0 := by
      rw [h1]
      exact Nat.le_zero.mp (ceilLog2_le 1 0 (by norm_num))
    rw [htop]
    show L.getD 0 "" ≠ ""
    have hmem : L.getD 0 "" ∈ L := by
      rw [List.getD_eq_getElem _ _ (by omega)]
      exact List.getElem_mem _
    exact hne _ hmem
  · have hn2 : 2 ≤ L.length := by omega
    have htop1 : 1 ≤ topLevel L.length := ceilLog2_pos _ hn2
    obtain ⟨T, hT⟩ : ∃ T, topLevel L.length = T + 1 := ⟨topLevel L.length - 1, by omega⟩
    rw [hT]
    show (chunkPair (levelNodes L T)).getD 0 "" ≠ ""
    have hcnt2 : 2 ≤ countNodesAtLevel L.length T :=
      two_le_countNodesAtLevel _ _ (ceilLog2_min _ T
        (by have hT' : ceilLog2 L.length = T + 1 := hT; omega))
    rw [chunkPair_getD_pair (levelNodes L T) 0 (by rw [levelNodes_length]; omega)]
    exact hashPair_ne_empty _ _

/-- Claim C1 (amended) — Merkle inclusion soundness: for a log built by
appending any sequence of nonempty leaf digests in which no node on the
target leaf's proof path shares its hash with a genuine sibling (in
particular, no duplicated leaf digests paired together), verification of
the generated proof against the current root succeeds, for every leaf
index in range. -/
theorem C1_inclusion_soundness (L : List String) (i : Nat) (hi : i < L.length)
    (hne : ∀ s ∈ L, s ≠ "") (hcl : noSelfPairClash L i = true) :
    (((buildTree L).getProofPath i).map fun path =>
      MerkleTree.verifyProof (L.getD i "") path (buildTree L).getRootHash) =
    Except.ok true := by
  have hInv := buildTree_Inv L
  rw [getProofPath_eq L _ hInv i hi, getRootHash_eq L _ hInv]
  show Except.ok (MerkleTree.verifyProof (L.getD i "") (pathSpec L i) (funcRoot L)) = _
  congr 1
  unfold MerkleTree.verifyProof
  have hroot : (funcRoot L == "") = false := by
    simp [funcRoot_ne_empty L (by omega) hne]
  simp only [hroot, Bool.false_eq_true, if_false]
  by_cases h1 : L.length = 1
  · have htop : topLevel L.length = 0 := by
      rw [h1]
      exact Nat.le_zero.mp (ceilLog2_le 1 0 (by norm_num))
    have hps : pathSpec L i = [] := by
      rw [← List.length_eq_zero, pathSpec_length, htop]
    have hi0 : i = 0 := by omega
    subst hi0
    rw [hps]
    show (L.getD 0 "" == funcRoot L) = true
    unfold funcRoot
    rw [if_neg (by omega), htop]
    simp [levelNodes]
  · have hn2 : 2 ≤ L.length := by omega
    have htop1 : 1 ≤ topLevel L.length := ceilLog2_pos _ hn2
    have hps : (pathSpec L i).isEmpty = false := by
      rw [List.isEmpty_eq_false_iff_exists_mem]
      have : 0 < (pathSpec L i).length := by rw [pathSpec_length]; omega
      exact ⟨(pathSpec L i).getD 0 ⟨"", "", Position.right⟩, by
        rw [List.getD_eq_getElem _ _ this]; exact List.getElem_mem _⟩
    simp only [hps, Bool.false_eq_true, if_false]
    have hfold := verifyFold_spec L i hi hcl (topLevel L.length) (le_refl _)
    rw [List.take_of_length_le (le_of_eq (pathSpec_length L i))] at hfold
    rw [hfold]
    have hdiv0 : i / 2 ^ topLevel L.length = 0 :=
      Nat.div_eq_of_lt (lt_of_lt_of_le hi (ceilLog2_le_pow _))
    rw [hdiv0]
    show ((levelNodes L (topLevel L.length)).getD 0 "" == funcRoot L) = true
    unfold funcRoot
    rw [if_neg (by omega)]
    simp

/-- Claim C1 counterexample: with two identical leaf digests the self-pair
skip misfires: leaf 0's genuine sibling carries the same hash as the
recorded node, the verification step is skipped, and the proof generated
for leaf 0 fails against the current root. -/
theorem C1_counterexample :
    (((buildTree [c1DupLeaf, c1DupLeaf]).getProofPath 0).map fun path =>
      MerkleTree.verifyProof ([c1DupLeaf, c1DupLeaf].getD 0 "") path
        (buildTree [c1DupLeaf, c1DupLeaf]).getRootHash) = Except.ok false := by
  rfl

/-- Witness for C1: a two-leaf log with distinct nonempty digests satisfies
the hypotheses, and leaf 0's proof verifies against the root. -/
theorem C1_witness :
    (((buildTree [c1LeafA, c1LeafB]).getProofPath 0).map fun path =>
      MerkleTree.verifyProof ([c1LeafA, c1LeafB].getD 0 "") path
        (buildTree [c1LeafA, c1LeafB]).getRootHash) = Except.ok true :=
  C1_inclusion_soundness [c1LeafA, c1LeafB] 0 (by decide) (by decide) (by rfl)

end CausalVerify
